import Mathlib

/-!
Verification of the Weir distributed rate-limiting system against its
natural-language specification.

The development shallowly embeds the relevant parts of the two components:

* the enforcer (`src/haproxy-lua/added-files/src/flt_weir.c` and
  `src/haproxy-lua/added-files/src/rate_limit.c`): the bandwidth-limit
  computation `apply_bandwidth_limit`, the payload hook `weir_http_payload`,
  the share-ingestion function `weir_ingest_limit_share_update`, and the
  speed-throttle machinery (`rl_speed_throttle`, `compute_allowed_run_time`,
  `is_valid_violation_policy`);
* the aggregator (`src/syslog_server/src`): the `StringSplit` tokenizer,
  the `RedisCmdKey` equality/hash, the event coalescers `processReq` and
  `processDataXfer`, and the flush routine `sendToRedisQos`.

Machine integers are modelled as `Nat`/`Int` with explicit wrap-around where
the C code can overflow; C `float`/`double` values are modelled as `ℚ`;
hash maps are modelled as association lists or as functions to `Option`.
-/

/-! ### Sliding-window frequency counter

Modelled from the spec: the two-slot sliding-window byte counter
(`struct freq_ctr` with `freq_ctr_overshoot_period`, `freq_ctr_remain_period`,
`update_freq_ctr_period` and `next_event_delay_period`) is the host proxy's
primitive and is not part of this repository; the spec fixes only its
semantics (section 4.1): a current and a previous one-period bucket, an
observed rate across the sliding window, the remaining admissible bytes, an
update into the current bucket, and the delay until more bytes are admitted.
-/

structure freq_ctr where
  curr : Nat
  prev : Nat
  elapsed_ms : Nat
deriving Repr, DecidableEq

/-- Modelled from the spec: the observed byte total across the sliding
window, counting the whole current bucket plus the part of the previous
bucket still inside the window. -/
def sliding_window_bytes (c : freq_ctr) (period : Nat) : Nat :=
  c.curr + c.prev * (period - c.elapsed_ms) / period

/-- Modelled from the spec: "If the observed rate across the sliding window
exceeds `limit`, return the positive byte overshoot; else 0." -/
def freq_ctr_overshoot_period (c : freq_ctr) (period limit : Nat) : Nat :=
  sliding_window_bytes c period - limit

/-- Modelled from the spec: "Return the bytes that may still be admitted in
the current sliding window without crossing `limit`." -/
def freq_ctr_remain_period (c : freq_ctr) (period limit pend : Nat) : Nat :=
  limit - (sliding_window_bytes c period + pend)

/-- Modelled from the spec: "Admit `bytes` into the current bucket." -/
def update_freq_ctr_period (c : freq_ctr) (_period bytes : Nat) : freq_ctr :=
  { c with curr := c.curr + bytes }

/-- Modelled from the spec: "Return the milliseconds until the window would
next admit more bytes": zero while quota remains, otherwise the time until
the current bucket rotates. -/
def next_event_delay_period (c : freq_ctr) (period limit pend : Nat) : Nat :=
  if limit ≤ sliding_window_bytes c period + pend then period - c.elapsed_ms % period else 0

/-! ### apply_bandwidth_limit (flt_weir.c lines 381-428) -/

/-- `struct apply_limit_result` from flt_weir.c. Both fields are `int` in C
and never negative on any path, so they are modelled as `Nat`. -/
structure apply_limit_result where
  wait_ms : Nat
  bytes_to_forward : Nat
deriving Repr, DecidableEq

/-- `apply_bandwidth_limit` from flt_weir.c. The C function mutates the
counter through `update_freq_ctr_period`; the model returns the updated
counter alongside the result. `div64_32` is truncating division on a
64-bit dividend, so the overshoot wait product
`(uint64_t)(overshoot_bytes) * period_ms * requests` is computed modulo
`2^64`, and the per-request quota sum
`quota_bytes_remaining + requests - 1` is computed in `unsigned int`,
wrapping modulo `2^32`, before the cast to `uint64_t`. -/
def apply_bandwidth_limit (counter : freq_ctr) (limit requests bytes_available : Nat) :
    apply_limit_result × freq_ctr :=
  let period_ms := 1000
  let max_wait_ms := 2 * period_ms
  let overshoot_bytes := freq_ctr_overshoot_period counter period_ms limit
  if 0 < overshoot_bytes then
    let wait := if 0 < limit
      then min max_wait_ms (overshoot_bytes * period_ms * requests % 2 ^ 64 / limit)
      else max_wait_ms
    (⟨wait, 0⟩, counter)
  else
    let quota := freq_ctr_remain_period counter period_ms limit 0
    let per_request := (quota + requests - 1) % 2 ^ 32 / requests
    let fwd := min bytes_available per_request
    let counter2 := update_freq_ctr_period counter period_ms fwd
    let wait := if fwd < bytes_available
      then min max_wait_ms (next_event_delay_period counter2 period_ms limit 0)
      else 0
    (⟨wait, fwd⟩, counter2)

/-! ### Speed-throttle machinery (rate_limit.c) -/

/-- `DataDirection` from rate_limit.h. -/
inductive DataDirection where
  | RL_UPLOAD
  | RL_DOWNLOAD
deriving Repr, DecidableEq

/-- `ThrottleFlag` from rate_limit.h. -/
inductive ThrottleFlag where
  | RL_THROTTLE
  | RL_NO_THROTTLE
deriving Repr, DecidableEq

/-- Subtraction of two `uint32_t` values as C computes it (wrap-around
modulo `2^32`). Inputs are reduced modulo `2^32` first, so the definition is
total on `Nat`. -/
def u32_sub (a b : Nat) : Nat :=
  (a % 2 ^ 32 + 2 ^ 32 - b % 2 ^ 32) % 2 ^ 32

/-- `speed_hash_value_t` from rate_limit.c. The C `float` fields
`diff_ratio` and `previous_diff_ratio` are modelled as rationals. -/
structure speed_hash_value_t where
  throttle : Nat
  num_active_connections : Nat
  received_epoch_sec : Nat
  diff_ratio : ℚ
  elapsed_usec_in_the_epoch : Nat
  allowed_run_time_usec : Nat
  previous_diff_ratio : ℚ
deriving Repr, DecidableEq

def BACKOFF_WINDOW_EPOCHS : Nat := 6

def MIN_RUN_TIME_USEC : Nat := 50 * 1000

def UNIT_USECS_IN_SEC : Nat := 1000000

/-- `is_valid_violation_policy` from rate_limit.c: the policy age in epochs
is the `uint32_t` difference `curr_sec - policy->received_epoch_sec`. -/
def is_valid_violation_policy (policy : speed_hash_value_t) (curr_sec : Nat) : Bool :=
  u32_sub curr_sec policy.received_epoch_sec ≤ BACKOFF_WINDOW_EPOCHS

/-- The `uint64_t` cast of the C `double` quotient
`(double)elapsed_usec / diff_ratio`, modelled over `ℚ` (truncation towards
zero of a non-negative quotient is its floor; negative quotients, undefined
behaviour in C, are mapped to 0). -/
def float_div_to_u64 (elapsed_usec : Nat) (diff_ratio : ℚ) : Nat :=
  ⌊(elapsed_usec : ℚ) / diff_ratio⌋.toNat

/-- `compute_allowed_run_time` from rate_limit.c (lines 235-249), returning
the `allowed_run_time_usec` the C function stores into the policy. -/
def compute_allowed_run_time (policy : speed_hash_value_t) (curr_sec : Nat) : Nat :=
  let policy_age := u32_sub curr_sec policy.received_epoch_sec
  let allowed := max MIN_RUN_TIME_USEC
    (float_div_to_u64 policy.elapsed_usec_in_the_epoch policy.diff_ratio)
  if policy_age = 0 then 0
  else if policy_age ≤ BACKOFF_WINDOW_EPOCHS then
    min (allowed * 2 ^ (policy_age - 1)) UNIT_USECS_IN_SEC
  else UNIT_USECS_IN_SEC

/-- `struct sockaddr_in` as the enforcer uses it: the IPv4 address and port
already converted to host order (`ntohl`/`ntohs`). -/
structure sockaddr_in where
  sin_addr : Nat
  sin_port : Nat
deriving Repr, DecidableEq

/-- `ip_port_from_sockaddr` from rate_limit.c: `(uint64_t)ip << 32 | port`
with `ip : uint32_t` and `port : uint16_t`. -/
def ip_port_from_sockaddr (addr_in : sockaddr_in) : Nat :=
  addr_in.sin_addr % 2 ^ 32 * 2 ^ 32 + addr_in.sin_port % 2 ^ 16

/-- `epoch_t` from rate_limit.c: the wall-clock second and the microseconds
elapsed within it. -/
structure epoch_t where
  in_seconds : Nat
  elapsed_usec_in_the_epoch : Nat
deriving Repr, DecidableEq

/-- The global hash maps of rate_limit.c, modelled as association lists:
`ip_port_key_hashmap`, `key_ip_port_count_hashmap`, and the two per-direction
`speed_hash` policy maps. -/
structure rate_limit_state where
  ip_port_key_hashmap : List (Nat × String)
  key_ip_port_count_hashmap : List (String × Nat)
  key_upload_speed_epoch_hashmap : List (String × speed_hash_value_t)
  key_download_speed_epoch_hashmap : List (String × speed_hash_value_t)
deriving Repr, DecidableEq

/-- `get_key_from_ip_port` from rate_limit.c. -/
def get_key_from_ip_port (st : rate_limit_state) (ip_port : Nat) : Option String :=
  List.lookup ip_port st.ip_port_key_hashmap

/-- `get_ip_port_count_from_key` from rate_limit.c (0 when absent). -/
def get_ip_port_count_from_key (st : rate_limit_state) (access_key : String) : Nat :=
  (List.lookup access_key st.key_ip_port_count_hashmap).getD 0

/-- `get_key_speed_hash` from rate_limit.c. -/
def get_key_speed_hash (st : rate_limit_state) (data_direction : DataDirection) :
    List (String × speed_hash_value_t) :=
  match data_direction with
  | .RL_UPLOAD => st.key_upload_speed_epoch_hashmap
  | .RL_DOWNLOAD => st.key_download_speed_epoch_hashmap

/-- The all-zero `speed_hash_value_t found = {.throttle = 0}` initializer. -/
def found_default : speed_hash_value_t :=
  ⟨0, 0, 0, 0, 0, 0, 0⟩

/-- `get_epoch_sec` from rate_limit.c (lines 251-289). Returns the `found`
value together with the looked-up access key (the C out-parameter). -/
def get_epoch_sec (st : rate_limit_state) (ip_port : Nat) (data_direction : DataDirection)
    (curr_sec : Nat) : speed_hash_value_t × Option String :=
  match get_key_from_ip_port st ip_port with
  | none => (found_default, none)
  | some access_key =>
    if access_key = "" then (found_default, some access_key)
    else
      match List.lookup access_key (get_key_speed_hash st data_direction) with
      | none => (found_default, some access_key)
      | some stored =>
        let found := { stored with throttle := 0 }
        if is_valid_violation_policy found curr_sec then
          ({ found with
              throttle := 1,
              num_active_connections := get_ip_port_count_from_key st access_key,
              allowed_run_time_usec := compute_allowed_run_time found curr_sec },
            some access_key)
        else (found, some access_key)

/-- `rl_speed_throttle` from rate_limit.c (lines 332-376). The current epoch
(the C `get_current_epoch()`) is passed explicitly; the optional jitter sleep
has no effect on the returned flag and is not modelled. -/
def rl_speed_throttle (st : rate_limit_state) (addr_in : Option sockaddr_in)
    (data_direction : DataDirection) (current_epoch : epoch_t) : ThrottleFlag :=
  match addr_in with
  | none => .RL_NO_THROTTLE
  | some addr =>
    let ip_port := ip_port_from_sockaddr addr
    let found := (get_epoch_sec st ip_port data_direction current_epoch.in_seconds).1
    if found.throttle = 0 then .RL_NO_THROTTLE
    else if current_epoch.elapsed_usec_in_the_epoch < found.allowed_run_time_usec then
      .RL_NO_THROTTLE
    else .RL_THROTTLE

/-! ### User-limit table and share ingestion (flt_weir.c lines 61-182) -/

def UINT_MAX : Nat := 2 ^ 32 - 1

/-- `struct user_direction_limit` from flt_weir.c. `bytes_per_second` is a
C `uint`, `active_requests` an `int`. -/
structure user_direction_limit where
  limit_received : Bool
  limit_timestamp : Nat
  bytes_per_second : Nat
  counter : freq_ctr
  active_requests : Int
  next_throttle_log_tick : Nat
deriving Repr, DecidableEq

/-- `struct user_limit` from flt_weir.c. -/
structure user_limit where
  upload : user_direction_limit
  download : user_direction_limit
  last_request_end_tick : Nat
deriving Repr, DecidableEq

/-- The zeroed record produced by `pool_zalloc(pool_head_weir_user_limit)`. -/
def user_limit_zalloc : user_limit :=
  ⟨⟨false, 0, 0, ⟨0, 0, 0⟩, 0, 0⟩, ⟨false, 0, 0, ⟨0, 0, 0⟩, 0, 0⟩, 0⟩

/-- The update `weir_ingest_limit_share_update` performs on one
`user_direction_limit`: set `limit_received`, then overwrite timestamp and
share exactly when `timestamp >= limit_timestamp`, storing the share clamped
to `UINT_MAX`. -/
def ingest_direction_update (d : user_direction_limit) (timestamp new_limit_share : Nat) :
    user_direction_limit :=
  let clamped := min new_limit_share UINT_MAX
  let d := { d with limit_received := true }
  if d.limit_timestamp ≤ timestamp then
    { d with limit_timestamp := timestamp, bytes_per_second := clamped }
  else d

/-- The filter-wide state touched by `weir_ingest_limit_share_update`: the
instance identifier and the user-limit hashtable, modelled as a function
from user keys. -/
structure weir_filter_config where
  instance_id : String
  user_limit_state : String → Option user_limit

/-- `weir_ingest_limit_share_update` from flt_weir.c (lines 119-182) in the
case `g_filter != NULL`. A mismatched instance id leaves the state
untouched; otherwise the user's record is inserted (zeroed) if absent and
the addressed direction is updated. An unrecognised direction string still
inserts the record but changes no limit. -/
def weir_ingest_limit_share_update (g : weir_filter_config) (timestamp : Nat)
    (user_key instance_id direction : String) (new_limit_share : Nat) : weir_filter_config :=
  if g.instance_id ≠ instance_id then g
  else
    let ul := (g.user_limit_state user_key).getD user_limit_zalloc
    let ul2 :=
      if direction = "up" then
        { ul with upload := ingest_direction_update ul.upload timestamp new_limit_share }
      else if direction = "dwn" then
        { ul with download := ingest_direction_update ul.download timestamp new_limit_share }
      else ul
    { g with user_limit_state := fun k => if k = user_key then some ul2 else g.user_limit_state k }

/-- A sequence of `weir_ingest_limit_share_update` calls for one user and
direction, each carrying a `(timestamp, bytes_per_second)` pair. -/
def ingest_calls (g : weir_filter_config) (user_key instance_id direction : String)
    (calls : List (Nat × Nat)) : weir_filter_config :=
  calls.foldl
    (fun g c => weir_ingest_limit_share_update g c.1 user_key instance_id direction c.2) g

/-! ### The enforcer payload hook (flt_weir.c lines 430-492) -/

/-- `struct weir_lim_state` from flt_weir.c, restricted to the fields the
payload hook reads. The pointed-to `user_limit` record is held by value;
`next_allowed_send_tick` uses the HAProxy convention that tick 0 is
`TICK_ETERNITY` (unset). -/
structure weir_lim_state where
  remote_addr : Option sockaddr_in
  limit : user_limit
  limit_key : String
  bandwidth_limit_direction : String
  next_allowed_send_tick : Nat
deriving Repr, DecidableEq

/-- HAProxy `tick_isset`: tick 0 means `TICK_ETERNITY`. -/
def tick_isset (t : Nat) : Bool := t ≠ 0

/-- HAProxy `tick_is_expired`, simplified to a monotone clock. -/
def tick_is_expired (t now : Nat) : Bool := t ≤ now

/-- `weir_http_payload` from flt_weir.c (lines 430-492), for an enabled
stream. Returns the bytes the filter forwards, the updated stream state
(with the per-direction `next_throttle_log_tick` of its `user_limit`
record), and whether a `data_xfer` event was emitted via
`rl_data_transferred` (which logs only when the ip/port maps to a non-empty
access key, and updates no counter). -/
def weir_http_payload (rl : rate_limit_state) (current_epoch : epoch_t)
    (st : weir_lim_state) (direction : DataDirection) (now_ms : Nat) (len : Nat) :
    Nat × weir_lim_state × Bool :=
  match st.remote_addr with
  | none => (len, st, false)
  | some addr =>
    if 0 < len ∧ (¬tick_isset st.next_allowed_send_tick
        ∨ tick_is_expired st.next_allowed_send_tick now_ms) then
      let st := { st with next_allowed_send_tick := 0 }
      if rl_speed_throttle rl (some addr) direction current_epoch = .RL_THROTTLE then
        let st := { st with next_allowed_send_tick := now_ms + 1 }
        let log_tick :=
          match direction with
          | .RL_DOWNLOAD => st.limit.download.next_throttle_log_tick
          | .RL_UPLOAD => st.limit.upload.next_throttle_log_tick
        let st :=
          if ¬tick_isset log_tick ∨ tick_is_expired log_tick now_ms then
            match direction with
            | .RL_DOWNLOAD =>
              { st with limit.download.next_throttle_log_tick := now_ms + 1000 }
            | .RL_UPLOAD =>
              { st with limit.upload.next_throttle_log_tick := now_ms + 1000 }
          else st
        (0, st, false)
      else
        let emitted :=
          match get_key_from_ip_port rl (ip_port_from_sockaddr addr) with
          | none => false
          | some k => k ≠ ""
        (len, st, emitted)
    else (0, st, false)

/-! ### StringSplit (syslog_server/src/stringsplit.cpp)

Aggregator byte strings (`std::string_view`) are modelled as `List Char`.
-/

/-- C++ `std::string_view::starts_with`-style prefix test, used to model
`find`: is `p` an initial segment of `l`? -/
def isPfx : List Char → List Char → Bool
  | [], _ => true
  | _ :: _, [] => false
  | a :: as, b :: bs => a = b && isPfx as bs

/-- The position of the first occurrence of `pat` in `l`
(`std::string_view::find` from position 0); `none` models `npos`. -/
def findSub : List Char → List Char → Option Nat
  | [], pat => if isPfx pat [] then some 0 else none
  | a :: t, pat =>
    if isPfx pat (a :: t) then some 0
    else (findSub t pat).map (· + 1)

/-- `std::string_view::find(pat, idx)`: first occurrence at position
`≥ idx`. -/
def stringFind (l pat : List Char) (idx : Nat) : Option Nat :=
  (findSub (l.drop idx) pat).map (· + idx)

/-- The `StringSplit` state from stringsplit.h. -/
structure StringSplit where
  m_input : List Char
  m_delimiter : List Char
  m_index : Nat
  m_error : Bool
  m_eof : Bool
deriving Repr, DecidableEq

/-- The `StringSplit` constructor: an empty delimiter is an immediate
error. -/
def StringSplit.make (input delimiter : List Char) : StringSplit :=
  ⟨input, delimiter, 0, delimiter.isEmpty, false⟩

/-- `StringSplit::next` from stringsplit.cpp (lines 17-53). The C++ method
mutates the object and returns the segment; the model returns both. -/
def StringSplit.next (s : StringSplit) : List Char × StringSplit :=
  if s.m_error then ([], s)
  else if s.m_eof then ([], { s with m_error := true })
  else if s.m_input.isEmpty then ([], { s with m_eof := true, m_index := 1 })
  else
    match stringFind s.m_input s.m_delimiter s.m_index with
    | none =>
      (s.m_input.drop s.m_index, { s with m_eof := true, m_index := s.m_input.length })
    | some next_index =>
      ((s.m_input.drop s.m_index).take (next_index - s.m_index),
        { s with m_index := next_index + s.m_delimiter.length })

/-- `StringSplit::finishedSuccessfully` from stringsplit.cpp. -/
def StringSplit.finishedSuccessfully (s : StringSplit) : Bool :=
  !s.m_error && decide (s.m_input.length ≤ s.m_index)

/-- `n` successive calls to `next()`, collecting the returned segments (the
token-array loop of `Processor::processReq`). -/
def takeTokens (s : StringSplit) : Nat → List (List Char) × StringSplit
  | 0 => ([], s)
  | n + 1 =>
    let (t, s1) := s.next
    let (ts, s2) := takeTokens s1 n
    (t :: ts, s2)

/-- The event-line field separator `DELIMITER = "~|~"`. -/
def DELIMITER : List Char := ['~', '|', '~']

/-- Fuelled recursion computing the delimiter-separated fields of a line;
the fuel only serves structural recursion and is irrelevant once it exceeds
the line length. -/
def splitFieldsAux : Nat → List Char → List (List Char)
  | 0, l => [l]
  | fuel + 1, l =>
    match findSub l DELIMITER with
    | none => [l]
    | some n => l.take n :: splitFieldsAux fuel (l.drop (n + 3))

/-- The delimiter-separated fields of a line, as produced by repeatedly
taking the segment before the next `DELIMITER`. -/
def splitFields (l : List Char) : List (List Char) :=
  splitFieldsAux (l.length + 1) l

/-! ### Event parsing and coalescing (syslog_server/src/msg_processor.cpp) -/

/-- `isPrintableASCII` from msg_processor.cpp: every byte satisfies
`std::isprint` (C locale: codes 0x20 to 0x7e). -/
def isPrintableASCII (key : List Char) : Bool :=
  key.all fun c => 32 ≤ c.toNat && c.toNat ≤ 126

/-- `std::from_chars` into an `int`: an optional minus sign followed by at
least one decimal digit; the parse succeeds on the longest digit run (junk
after the digits is ignored, exactly as the call sites use it) and fails if
the value does not fit in a 32-bit `int`. -/
def fromCharsInt (l : List Char) : Option Int :=
  let (neg, rest) :=
    match l with
    | '-' :: t => (true, t)
    | _ => (false, l)
  let digits := rest.takeWhile fun c => c.isDigit
  if digits.isEmpty then none
  else
    let v : Nat := digits.foldl (fun a c => a * 10 + (c.toNat - 48)) 0
    let i : Int := if neg then -(v : Int) else (v : Int)
    if -(2 ^ 31) ≤ i ∧ i < 2 ^ 31 then some i else none

/-- `Processor::RedisCmdKey`: the timestamp is a
`std::chrono::system_clock::time_point`, modelled in milliseconds since the
epoch. -/
structure RedisCmdKey where
  m_user : List Char
  m_timestamp : Nat
  m_cat : List Char
deriving Repr, DecidableEq

/-- `getEpochSecs` from msg_processor.cpp: floor the timestamp to whole
seconds. The function's return type is `uint32_t`, so the 64-bit second
count is truncated modulo `2^32`. -/
def getEpochSecs (timestamp_ms : Nat) : Nat := timestamp_ms / 1000 % 2 ^ 32

/-- `Processor::RedisCmdKey::operator==` (msg_processor.cpp lines 44-52). -/
def redisCmdKeyEq (a b : RedisCmdKey) : Bool :=
  a.m_user = b.m_user && getEpochSecs a.m_timestamp = getEpochSecs b.m_timestamp
    && a.m_cat = b.m_cat

/-- `Processor::RedisCmdKeyHash::operator()` (msg_processor.cpp lines
53-59), parameterised by the opaque standard hashes `std::hash<std::string>`
and `std::hash<uint32_t>`; `std::size_t` arithmetic is modulo `2^64`. -/
def redisCmdKeyHash (hash_string : List Char → Nat) (hash_u32 : Nat → Nat)
    (k : RedisCmdKey) : Nat :=
  let h1 := hash_string k.m_user
  let h2 := hash_u32 (getEpochSecs k.m_timestamp)
  let h3 := hash_string k.m_cat
  (h1 ^^^ h2 <<< 1 ^^^ h3 <<< 2) % 2 ^ 64

/-- `m_qos_redis_commands[key] += v` on the unordered map modelled as an
association list under `redisCmdKeyEq` (absent keys default-construct to
0, as `operator[]` does). -/
def cmdMapAdd (m : List (RedisCmdKey × Int)) (k : RedisCmdKey) (v : Int) :
    List (RedisCmdKey × Int) :=
  match m with
  | [] => [(k, v)]
  | (k0, v0) :: rest =>
    if redisCmdKeyEq k0 k then (k0, v0 + v) :: rest else (k0, v0) :: cmdMapAdd rest k v

/-- Lookup in the command map under `redisCmdKeyEq` (0 when absent). -/
def cmdMapGet (m : List (RedisCmdKey × Int)) (k : RedisCmdKey) : Int :=
  match m with
  | [] => 0
  | (k0, v0) :: rest => if redisCmdKeyEq k0 k then v0 else cmdMapGet rest k

/-- `m_qos_redis_active_reqs[key] = v` (assignment, not increment). -/
def gaugeMapSet (m : List (List Char × Int)) (k : List Char) (v : Int) :
    List (List Char × Int) :=
  match m with
  | [] => [(k, v)]
  | (k0, v0) :: rest =>
    if k0 = k then (k0, v) :: rest else (k0, v0) :: gaugeMapSet rest k v

/-- The `Processor` members that the message handlers and the flush routine
read and write. Times are milliseconds; the configured durations are kept in
the units the code compares with (`m_check_conn_interval` and
`m_processor_batch_flush_period` in milliseconds, `m_redis_qos_ttl` and
`m_redis_qos_conn_ttl` in seconds). -/
structure ProcessorState where
  m_endpoint : List Char
  m_qos_redis_commands : List (RedisCmdKey × Int)
  m_qos_redis_active_reqs : List (List Char × Int)
  m_qos_not_send_count : Nat
  m_last_redis_flush_time : Nat
  m_last_redis_connect_time : Nat
  m_redis_qos_ttl : Nat
  m_redis_qos_conn_ttl : Nat
  m_check_conn_interval : Nat
  m_processor_batch_count : Nat
  m_processor_batch_flush_period : Nat
deriving Repr, DecidableEq

/-- `Processor::processReq` (msg_processor.cpp lines 280-323). `now` is the
value of `m_time.now()`; the second component reports whether an error was
logged (and the event dropped). -/
def processReq (st : ProcessorState) (raw_input : List Char) (now : Nat) :
    ProcessorState × Bool :=
  let (tokens, split) := takeTokens (StringSplit.make raw_input DELIMITER) 8
  if !split.finishedSuccessfully then (st, true)
  else
    match fromCharsInt (tokens.getD 6 []) with
    | none => (st, true)
    | some active_requests =>
      let user_key := tokens.getD 2 []
      if !isPrintableASCII user_key then (st, true)
      else
        let verb := tokens.getD 3 []
        let direction := tokens.getD 4 []
        let instance_id := tokens.getD 5 []
        let request_class := tokens.getD 7 []
        let conn_key := "conn_v2_user_".toList ++ direction ++ "_".toList ++ instance_id
          ++ "_".toList ++ user_key ++ "$".toList ++ st.m_endpoint
        let cmd_key := "user_".toList ++ user_key
        let cmds1 :=
          if 0 < request_class.length then
            cmdMapAdd st.m_qos_redis_commands ⟨cmd_key, now, request_class⟩ 1
          else st.m_qos_redis_commands
        let cmds2 := cmdMapAdd cmds1 ⟨cmd_key, now, verb⟩ 1
        ({ st with
            m_qos_redis_commands := cmds2,
            m_qos_redis_active_reqs :=
              gaugeMapSet st.m_qos_redis_active_reqs conn_key active_requests,
            m_qos_not_send_count := st.m_qos_not_send_count + 1 }, false)

/-- `Processor::processDataXfer` (msg_processor.cpp lines 325-353). The
second component reports whether an error was logged; an empty (but
printable) user key returns silently without touching any state. -/
def processDataXfer (st : ProcessorState) (raw_input : List Char) (now : Nat) :
    ProcessorState × Bool :=
  let (tokens, split) := takeTokens (StringSplit.make raw_input DELIMITER) 5
  let user := tokens.getD 2 []
  let direction := tokens.getD 3 []
  let len_str := tokens.getD 4 []
  match fromCharsInt len_str with
  | none => (st, true)
  | some len =>
    if !split.finishedSuccessfully then (st, true)
    else if !isPrintableASCII user then (st, true)
    else if user.isEmpty then (st, false)
    else
      let direction_key := "bnd_".toList ++ direction
      let cmd_key := "user_".toList ++ user
      ({ st with
          m_qos_redis_commands := cmdMapAdd st.m_qos_redis_commands ⟨cmd_key, now, direction_key⟩ len,
          m_qos_not_send_count := st.m_qos_not_send_count + 1 }, false)

/-- A pipelined store command, as built by `sendToRedisQos`. -/
inductive RedisCmd where
  | hincrby (key field : List Char) (v : Int)
  | expire (key : List Char) (ttl : Nat)
  | setex (key : List Char) (v : Int) (ttl : Nat)
deriving Repr, DecidableEq

/-- The decimal rendering of the bucket second used in
`verb_{sec}_{user}${endpoint}`. -/
def natDigits (n : Nat) : List Char := (Nat.repr n).toList

/-- The `verb_{sec}_{user}${endpoint}` store key. -/
def ssKey (k : RedisCmdKey) (endpoint : List Char) : List Char :=
  "verb_".toList ++ natDigits (getEpochSecs k.m_timestamp) ++ "_".toList ++ k.m_user
    ++ "$".toList ++ endpoint

/-- The command-emission loop of `sendToRedisQos` in the connected case:
one `hincrby` per map entry plus, the first time each composite store key is
seen, one `expire`. `keys_found` is the `std::unordered_set` of keys. -/
def emitQosCommands (entries : List (RedisCmdKey × Int)) (endpoint : List Char)
    (qos_ttl : Nat) (keys_found : List (List Char)) : List RedisCmd :=
  match entries with
  | [] => []
  | (k, v) :: rest =>
    let key := ssKey k endpoint
    let head := RedisCmd.hincrby key k.m_cat v
    if key ∈ keys_found then
      head :: emitQosCommands rest endpoint qos_ttl keys_found
    else
      head :: RedisCmd.expire key qos_ttl :: emitQosCommands rest endpoint qos_ttl (key :: keys_found)

/-- `Processor::sendToRedisQos` (msg_processor.cpp lines 222-277). `now` is
`m_time.now()` in milliseconds and `connected` the store-connection state.
Returns the new state, the submitted commands in order, and whether
`connect()` was invoked. -/
def sendToRedisQos (st : ProcessorState) (connected : Bool) (now : Nat) :
    ProcessorState × List RedisCmd × Bool :=
  let flush_for_time := st.m_last_redis_flush_time + st.m_processor_batch_flush_period < now
  let flush_for_msg_count := st.m_processor_batch_count ≤ st.m_qos_not_send_count
  if !flush_for_time && !flush_for_msg_count then (st, [], false)
  else
    let st := { st with m_last_redis_flush_time := now, m_qos_not_send_count := 0 }
    if !connected then
      let reconnect := st.m_last_redis_connect_time + st.m_check_conn_interval < now
      let st := if reconnect then { st with m_last_redis_connect_time := now } else st
      let cutoff := now - st.m_redis_qos_ttl * 1000
      ({ st with
          m_qos_redis_commands :=
            st.m_qos_redis_commands.filter fun kv => !decide (kv.1.m_timestamp < cutoff),
          m_qos_redis_active_reqs := [] }, [], reconnect)
    else
      let qos_cmds := emitQosCommands st.m_qos_redis_commands st.m_endpoint st.m_redis_qos_ttl []
      let gauge_cmds := st.m_qos_redis_active_reqs.map fun kv =>
        RedisCmd.setex kv.1 kv.2 st.m_redis_qos_conn_ttl
      ({ st with m_qos_redis_commands := [], m_qos_redis_active_reqs := [] },
        qos_cmds ++ gauge_cmds, false)

/-! ### Specification-side definitions and concrete example states -/

/-- Specification-side reading of the monotone-share rule: the
`(timestamp, bytes_per_second)` pair with the greatest timestamp among a
sequence of calls, later calls overwriting earlier ones on ties. -/
def greatestTsShare : List (Nat × Nat) → Option (Nat × Nat)
  | [] => none
  | c :: rest =>
    match greatestTsShare rest with
    | none => some c
    | some b => if b.1 < c.1 then some c else some b

/-- Join fields with the `~|~` separator (how the enforcer renders event
lines). -/
def joinD : List (List Char) → List Char
  | [] => []
  | [f] => f
  | f :: fs => f ++ DELIMITER ++ joinD fs

/-- A well-formed `req` event line. -/
def reqLine (ip user verb direction instance_id active request_class : List Char) : List Char :=
  joinD ["req".toList, ip, user, verb, direction, instance_id, active, request_class]

/-- A well-formed `data_xfer` event line. -/
def dataXferLine (ip user direction len : List Char) : List Char :=
  joinD ["data_xfer".toList, ip, user, direction, len]

/-- A processor state with empty maps and the defaults of
processor_config.h (`qos_ttl` 2 s, `conn_ttl` 60 s, check interval 5 s,
batch count 250000, batch period 31 ms). -/
def procEmpty : ProcessorState :=
  ⟨"E".toList, [], [], 0, 0, 0, 2, 60, 5000, 250000, 31⟩

/-- A processor state holding one stale and one fresh command-map entry and
one gauge entry, used to exercise the disconnected flush. -/
def procLoaded : ProcessorState :=
  ⟨"E".toList,
    [(⟨"user_u".toList, 5000, "GET".toList⟩, 3), (⟨"user_u".toList, 139000, "PUT".toList⟩, 1)],
    [("g".toList, 2)], 7, 0, 100000, 2, 60, 5000, 250000, 31⟩

/-- An empty throttle-table state: no ip/port mappings and no policies. -/
def rl_empty : rate_limit_state := ⟨[], [], [], []⟩

/-- A throttle-table state carrying one download policy for key "u"
reachable from ip/port (1, 80). -/
def rl_loaded : rate_limit_state :=
  ⟨[(1 * 2 ^ 32 + 80, "u")], [("u", 1)], [], [("u", ⟨0, 0, 100, 2, 750000, 0, 0⟩)]⟩

/-- The frequency-counter state of the C1 scenario: 1200 bytes already
admitted in the current period. -/
def c1_counter : freq_ctr := ⟨1200, 0, 0⟩

/-- The stream state of the C1 scenario: an IPv4 peer, a share of 1000
bytes/s already received, one active upload request, and no pending
`next_allowed_send_tick`. -/
def c1_stream : weir_lim_state :=
  ⟨some ⟨16909060, 80⟩,
    { user_limit_zalloc with
        upload := { user_limit_zalloc.upload with
          limit_received := true, bytes_per_second := 1000,
          counter := c1_counter, active_requests := 1 } },
    "u", "up", 0⟩

/-- A filter config whose table is empty, instance id "I". -/
def weir_config_empty : weir_filter_config := ⟨"I", fun _ => none⟩

/-- The spec scenario's first transfer event: 4096 bytes up for user u. -/
def dx4096 : List Char := "data_xfer~|~1.2.3.4:80~|~u~|~up~|~4096".toList

/-- The spec scenario's second transfer event: 1024 bytes up for user u. -/
def dx1024 : List Char := "data_xfer~|~1.2.3.4:80~|~u~|~up~|~1024".toList

/-! ## Theorems -/

/-- C2 counterexample: with an empty counter, limit `2^32 - 1` and
2 requests, the per-request quota sum `(2^32 - 1) + 2 - 1` wraps to 0 in the
32-bit `unsigned int` arithmetic of flt_weir.c line 416, so the function
forwards 0 of the 100 available bytes, while the unwrapped formula
`min bytes_available ⌈remaining/requests⌉` gives 100 (the overshoot is 0, so
this is the quota branch). -/
theorem apply_bandwidth_limit_wraps :
    freq_ctr_overshoot_period ⟨0, 0, 0⟩ 1000 (2 ^ 32 - 1) = 0 ∧
    freq_ctr_remain_period ⟨0, 0, 0⟩ 1000 (2 ^ 32 - 1) 0 = 2 ^ 32 - 1 ∧
    (apply_bandwidth_limit ⟨0, 0, 0⟩ (2 ^ 32 - 1) 2 100).1.bytes_to_forward = 0 ∧
    min 100 ((2 ^ 32 - 1) ⌈/⌉ 2) = 100 := by
  refine ⟨by decide, by decide, by decide, ?_⟩
  rw [Nat.ceilDiv_eq_add_pred_div]
  decide

/-- C2: `apply_bandwidth_limit` with period 1000 ms and max wait 2000 ms
returns, when the counter overshoots, zero forwarded bytes, an unchanged
counter, and a wait of
`min 2000 ((overshoot·1000·requests mod 2^64)/limit)` — equal to
`min 2000 (overshoot·1000·requests/limit)` whenever the product fits in the
64 bits it is computed in — or 2000 when `limit = 0`; otherwise it forwards
`min bytes_available (((remaining + requests - 1) mod 2^32)/requests)` —
equal to `min bytes_available ⌈remaining/requests⌉` whenever the sum fits in
the 32-bit `unsigned int` it is computed in — updates the counter with the
forwarded bytes, and waits `min 2000 (next_event_delay)` exactly when the
forward was truncated. In particular an empty counter with limit 1000,
1 request and 200 bytes forwards 200 with no wait, and a counter holding
1200 bytes with limit 1000, 2 requests and 500 bytes forwards 0 with wait
400. -/
theorem apply_bandwidth_limit_spec :
    (∀ (c : freq_ctr) (limit requests bytes_available : Nat), 1 ≤ requests →
      (0 < freq_ctr_overshoot_period c 1000 limit →
        (apply_bandwidth_limit c limit requests bytes_available).1.bytes_to_forward = 0 ∧
        (apply_bandwidth_limit c limit requests bytes_available).2 = c ∧
        (0 < limit →
          (apply_bandwidth_limit c limit requests bytes_available).1.wait_ms =
            min 2000
              (freq_ctr_overshoot_period c 1000 limit * 1000 * requests % 2 ^ 64 / limit)) ∧
        (freq_ctr_overshoot_period c 1000 limit * 1000 * requests < 2 ^ 64 → 0 < limit →
          (apply_bandwidth_limit c limit requests bytes_available).1.wait_ms =
            min 2000 (freq_ctr_overshoot_period c 1000 limit * 1000 * requests / limit)) ∧
        (limit = 0 →
          (apply_bandwidth_limit c limit requests bytes_available).1.wait_ms = 2000)) ∧
      (freq_ctr_overshoot_period c 1000 limit = 0 →
        (apply_bandwidth_limit c limit requests bytes_available).1.bytes_to_forward =
          min bytes_available
            ((freq_ctr_remain_period c 1000 limit 0 + requests - 1) % 2 ^ 32 / requests) ∧
        (freq_ctr_remain_period c 1000 limit 0 + requests - 1 < 2 ^ 32 →
          (apply_bandwidth_limit c limit requests bytes_available).1.bytes_to_forward =
            min bytes_available (freq_ctr_remain_period c 1000 limit 0 ⌈/⌉ requests)) ∧
        (apply_bandwidth_limit c limit requests bytes_available).2 =
          update_freq_ctr_period c 1000
            (apply_bandwidth_limit c limit requests bytes_available).1.bytes_to_forward ∧
        ((apply_bandwidth_limit c limit requests bytes_available).1.bytes_to_forward
            < bytes_available →
          (apply_bandwidth_limit c limit requests bytes_available).1.wait_ms =
            min 2000 (next_event_delay_period
              (apply_bandwidth_limit c limit requests bytes_available).2 1000 limit 0)) ∧
        ((apply_bandwidth_limit c limit requests bytes_available).1.bytes_to_forward
            = bytes_available →
          (apply_bandwidth_limit c limit requests bytes_available).1.wait_ms = 0)))
    ∧ apply_bandwidth_limit ⟨0, 0, 0⟩ 1000 1 200 = (⟨0, 200⟩, ⟨200, 0, 0⟩)
    ∧ apply_bandwidth_limit ⟨1200, 0, 0⟩ 1000 2 500 = (⟨400, 0⟩, ⟨1200, 0, 0⟩) := by
  refine ⟨?_, by decide, by decide⟩
  intro c limit requests bytes_available _hreq
  constructor
  · intro hov
    refine ⟨?_, ?_, ?_, ?_, ?_⟩
    · simp [apply_bandwidth_limit, if_pos hov]
    · simp [apply_bandwidth_limit, if_pos hov]
    · intro hl
      simp [apply_bandwidth_limit, if_pos hov, if_pos hl]
    · intro hsm hl
      have h3 : (apply_bandwidth_limit c limit requests bytes_available).1.wait_ms =
          min 2000
            (freq_ctr_overshoot_period c 1000 limit * 1000 * requests % 2 ^ 64 / limit) := by
        simp [apply_bandwidth_limit, if_pos hov, if_pos hl]
      rw [h3, Nat.mod_eq_of_lt hsm]
    · intro hl
      subst hl
      simp [apply_bandwidth_limit, if_pos hov]
  · intro hov
    have hnov : ¬ 0 < freq_ctr_overshoot_period c 1000 limit := by omega
    refine ⟨?_, ?_, ?_, ?_, ?_⟩
    · simp [apply_bandwidth_limit, if_neg hnov]
    · intro hq
      have h1 : (apply_bandwidth_limit c limit requests bytes_available).1.bytes_to_forward =
          min bytes_available
            ((freq_ctr_remain_period c 1000 limit 0 + requests - 1) % 2 ^ 32 / requests) := by
        simp [apply_bandwidth_limit, if_neg hnov]
      rw [h1, Nat.mod_eq_of_lt hq, Nat.ceilDiv_eq_add_pred_div]
    · simp [apply_bandwidth_limit, if_neg hnov]
    · intro hlt
      simp only [apply_bandwidth_limit, if_neg hnov] at hlt ⊢
      rw [if_pos hlt]
    · intro heq
      simp only [apply_bandwidth_limit, if_neg hnov] at heq ⊢
      rw [if_neg (by omega)]

/-- C2 witness: the general clause of `apply_bandwidth_limit_spec`
instantiated on the over-limit scenario of the spec, including the in-range
wait formula. -/
theorem apply_bandwidth_limit_spec_witness :
    (1 ≤ 2 ∧ 0 < freq_ctr_overshoot_period ⟨1200, 0, 0⟩ 1000 1000 ∧
      freq_ctr_overshoot_period ⟨1200, 0, 0⟩ 1000 1000 * 1000 * 2 < 2 ^ 64 ∧ 0 < 1000) ∧
    (apply_bandwidth_limit ⟨1200, 0, 0⟩ 1000 2 500).1.bytes_to_forward = 0 ∧
    (apply_bandwidth_limit ⟨1200, 0, 0⟩ 1000 2 500).1.wait_ms =
      min 2000 (freq_ctr_overshoot_period ⟨1200, 0, 0⟩ 1000 1000 * 1000 * 2 / 1000) :=
  ⟨⟨by decide, by decide, by decide, by decide⟩,
    ((apply_bandwidth_limit_spec.1 ⟨1200, 0, 0⟩ 1000 2 500 (by decide)).1 (by decide)).1,
    ((apply_bandwidth_limit_spec.1 ⟨1200, 0, 0⟩ 1000 2 500 (by decide)).1
      (by decide)).2.2.2.1 (by decide) (by decide)⟩

/-- C3 counterexample: a policy received in the current second (age 0) is
valid, yet `compute_allowed_run_time` yields 0, below the claimed lower
bound of 50 000 µs. -/
theorem compute_allowed_run_time_age_zero :
    is_valid_violation_policy ⟨0, 0, 100, 2, 750000, 0, 0⟩ 100 = true ∧
    compute_allowed_run_time ⟨0, 0, 100, 2, 750000, 0, 0⟩ 100 = 0 ∧
    ¬ 50000 ≤ compute_allowed_run_time ⟨0, 0, 100, 2, 750000, 0, 0⟩ 100 := by
  refine ⟨by decide, ?_, ?_⟩ <;>
    simp [compute_allowed_run_time, u32_sub]

/-- C3 (amended): whenever `speed_throttle` evaluates a valid policy of age
1 to 6 epochs, the computed `allowed_run_time_usec` lies between 50 000 and
1 000 000 µs, for every `elapsed_usec_in_the_epoch` and every `diff_ratio`;
at age 0 the computed value is 0. -/
theorem compute_allowed_run_time_bounds (p : speed_hash_value_t) (curr_sec : Nat)
    (h1 : 1 ≤ u32_sub curr_sec p.received_epoch_sec)
    (h6 : u32_sub curr_sec p.received_epoch_sec ≤ 6) :
    50000 ≤ compute_allowed_run_time p curr_sec ∧
    compute_allowed_run_time p curr_sec ≤ 1000000 := by
  unfold compute_allowed_run_time BACKOFF_WINDOW_EPOCHS MIN_RUN_TIME_USEC UNIT_USECS_IN_SEC
  rw [if_neg (by omega), if_pos h6]
  constructor
  · refine le_min ?_ (by norm_num)
    calc (50000 : Nat) = 50 * 1000 := by norm_num
    _ ≤ max (50 * 1000) (float_div_to_u64 p.elapsed_usec_in_the_epoch p.diff_ratio) :=
        le_max_left _ _
    _ ≤ max (50 * 1000) (float_div_to_u64 p.elapsed_usec_in_the_epoch p.diff_ratio)
          * 2 ^ (u32_sub curr_sec p.received_epoch_sec - 1) :=
        Nat.le_mul_of_pos_right _ (Nat.two_pow_pos _)
  · exact min_le_right _ _

/-- C3 witness: the amended bound instantiated on the spec's backoff
scenario (policy received at second 100, queried at second 101,
`elapsed = 750000`, ratio 2). -/
theorem compute_allowed_run_time_bounds_witness :
    (1 ≤ u32_sub 101 100 ∧ u32_sub 101 100 ≤ 6) ∧
    (50000 ≤ compute_allowed_run_time ⟨0, 0, 100, 2, 750000, 0, 0⟩ 101 ∧
      compute_allowed_run_time ⟨0, 0, 100, 2, 750000, 0, 0⟩ 101 ≤ 1000000) :=
  ⟨⟨by decide, by decide⟩,
    compute_allowed_run_time_bounds ⟨0, 0, 100, 2, 750000, 0, 0⟩ 101 (by decide) (by decide)⟩

/-- C1: on a payload chunk of 500 bytes for a stream with an IPv4 source,
an unset `next_allowed_send_tick` and `speed_throttle` returning NoThrottle,
`weir_http_payload` forwards all 500 bytes and leaves the user frequency
counter untouched, although `apply_bandwidth_limit` on the stream's counter,
share and active-request count would forward 0 bytes: the filter never
invokes `apply_bandwidth_limit` and never updates the counter. -/
theorem weir_http_payload_bypasses_bandwidth_limit :
    rl_speed_throttle rl_empty (some ⟨16909060, 80⟩) .RL_UPLOAD ⟨100, 0⟩ = .RL_NO_THROTTLE ∧
    (weir_http_payload rl_empty ⟨100, 0⟩ c1_stream .RL_UPLOAD 5000 500).1 = 500 ∧
    (weir_http_payload rl_empty ⟨100, 0⟩ c1_stream .RL_UPLOAD 5000 500).2.1.limit.upload.counter
      = c1_counter ∧
    (apply_bandwidth_limit c1_counter 1000 1 500).1.bytes_to_forward = 0 := by
  refine ⟨by decide, by decide, by decide, by decide⟩

/-- C7 counterexample: `getEpochSecs` returns `uint32_t`
(msg_processor.cpp line 37), so two keys whose floor-to-second values are
`2^32` apart — here 0 ms and `2^32 · 1000` ms — compare equal although their
floor-seconds differ, refuting the claimed characterisation of key equality
by floor-second agreement. -/
theorem redis_cmd_key_eq_truncates :
    redisCmdKeyEq ⟨"user_u".toList, 0, "GET".toList⟩
      ⟨"user_u".toList, 2 ^ 32 * 1000, "GET".toList⟩ = true ∧
    (0 : Nat) / 1000 ≠ 2 ^ 32 * 1000 / 1000 := by
  exact ⟨by decide, by decide⟩

/-- C7: two `RedisCmdKey` values compare equal exactly when they carry the
same user, timestamps whose floor-to-second values agree modulo `2^32` (the
`uint32_t` truncation of `getEpochSecs`), and the same category; equal keys
hash equally for every choice of the standard string and integer hashes;
timestamps 10100 ms and 10999 ms collapse while 10999 ms and 11001 ms do
not. -/
theorem redis_cmd_key_eq_hash :
    (∀ a b : RedisCmdKey, redisCmdKeyEq a b = true ↔
      (a.m_user = b.m_user ∧
        a.m_timestamp / 1000 % 2 ^ 32 = b.m_timestamp / 1000 % 2 ^ 32 ∧
        a.m_cat = b.m_cat)) ∧
    (∀ (hash_string : List Char → Nat) (hash_u32 : Nat → Nat) (a b : RedisCmdKey),
      redisCmdKeyEq a b = true →
      redisCmdKeyHash hash_string hash_u32 a = redisCmdKeyHash hash_string hash_u32 b) ∧
    redisCmdKeyEq ⟨"user_u".toList, 10100, "GET".toList⟩
      ⟨"user_u".toList, 10999, "GET".toList⟩ = true ∧
    redisCmdKeyEq ⟨"user_u".toList, 10999, "GET".toList⟩
      ⟨"user_u".toList, 11001, "GET".toList⟩ = false := by
  refine ⟨?_, ?_, by decide, by decide⟩
  · intro a b
    simp [redisCmdKeyEq, getEpochSecs, and_assoc]
  · intro hash_string hash_u32 a b h
    simp only [redisCmdKeyEq, Bool.and_eq_true, decide_eq_true_eq] at h
    obtain ⟨⟨h1, h2⟩, h3⟩ := h
    simp [redisCmdKeyHash, h1, h2, h3]

/-- C7 witness: the hash-consistency clause applied to the two keys inside
one second, for a concrete pair of hash functions. -/
theorem redis_cmd_key_eq_hash_witness :
    redisCmdKeyEq ⟨"user_u".toList, 10100, "GET".toList⟩
      ⟨"user_u".toList, 10999, "GET".toList⟩ = true ∧
    redisCmdKeyHash List.length id ⟨"user_u".toList, 10100, "GET".toList⟩ =
      redisCmdKeyHash List.length id ⟨"user_u".toList, 10999, "GET".toList⟩ :=
  ⟨by decide,
    redis_cmd_key_eq_hash.2.1 List.length id ⟨"user_u".toList, 10100, "GET".toList⟩
      ⟨"user_u".toList, 10999, "GET".toList⟩ (by decide)⟩

/-- C8: on a flush tick while the store is disconnected, `sendToRedisQos`
submits no commands, keeps exactly the command-map entries at most
`qos_ttl` seconds old and drops the older ones, clears the gauge map
entirely, and calls `connect()` only when at least `check_conn_interval` has
elapsed since the previous connect attempt. -/
theorem sendToRedisQos_disconnected (st : ProcessorState) (now : Nat)
    (hflush : st.m_last_redis_flush_time + st.m_processor_batch_flush_period < now ∨
      st.m_processor_batch_count ≤ st.m_qos_not_send_count) :
    (sendToRedisQos st false now).2.1 = [] ∧
    (sendToRedisQos st false now).1.m_qos_redis_commands =
      st.m_qos_redis_commands.filter
        (fun kv => decide (now ≤ kv.1.m_timestamp + st.m_redis_qos_ttl * 1000)) ∧
    (sendToRedisQos st false now).1.m_qos_redis_active_reqs = [] ∧
    ((sendToRedisQos st false now).2.2 = true →
      st.m_last_redis_connect_time + st.m_check_conn_interval ≤ now) := by
  have h1 : (!decide (st.m_last_redis_flush_time + st.m_processor_batch_flush_period < now)
      && !decide (st.m_processor_batch_count ≤ st.m_qos_not_send_count)) = false := by
    rcases hflush with h | h <;> simp [h]
  have hfilter : ∀ kv : RedisCmdKey × Int, kv ∈ st.m_qos_redis_commands →
      (!decide (kv.1.m_timestamp < now - st.m_redis_qos_ttl * 1000)) =
        decide (now ≤ kv.1.m_timestamp + st.m_redis_qos_ttl * 1000) := by
    intro kv _
    rw [← decide_not]
    exact decide_eq_decide.mpr (by omega)
  by_cases hrc : st.m_last_redis_connect_time + st.m_check_conn_interval < now
  · simp only [sendToRedisQos, h1, Bool.false_eq_true, if_false, Bool.not_false, if_true,
      if_pos hrc]
    exact ⟨trivial, List.filter_congr hfilter, trivial, fun _ => by omega⟩
  · simp only [sendToRedisQos, h1, Bool.false_eq_true, if_false, Bool.not_false, if_true,
      if_neg hrc]
    exact ⟨trivial, List.filter_congr hfilter, trivial, fun h => by simp at h; omega⟩

/-- If `get_epoch_sec` reports a throttleable policy, the ip/port maps to
a non-empty key that holds a policy at most `BACKOFF_WINDOW_EPOCHS` old. -/
theorem get_epoch_sec_throttle_ne_zero {st : rate_limit_state} {ip_port : Nat}
    {dir : DataDirection} {curr : Nat}
    (h : (get_epoch_sec st ip_port dir curr).1.throttle ≠ 0) :
    ∃ access_key policy, get_key_from_ip_port st ip_port = some access_key ∧
      access_key ≠ "" ∧
      List.lookup access_key (get_key_speed_hash st dir) = some policy ∧
      u32_sub curr policy.received_epoch_sec ≤ BACKOFF_WINDOW_EPOCHS := by
  unfold get_epoch_sec at h
  cases hk : get_key_from_ip_port st ip_port with
  | none => simp [hk, found_default] at h
  | some access_key =>
    rw [hk] at h
    simp only at h
    by_cases hke : access_key = ""
    · rw [if_pos hke] at h
      simp [found_default] at h
    · rw [if_neg hke] at h
      cases hp : List.lookup access_key (get_key_speed_hash st dir) with
      | none =>
        rw [hp] at h
        simp [found_default] at h
      | some policy =>
        rw [hp] at h
        simp only at h
        by_cases hv : is_valid_violation_policy { policy with throttle := 0 } curr = true
        · refine ⟨access_key, policy, rfl, hke, hp, ?_⟩
          simpa [is_valid_violation_policy] using hv
        · rw [if_neg hv] at h
          simp at h

/-- C4: `rl_speed_throttle` answers Throttle only when the address maps to
a non-empty user key holding a policy in the queried direction whose age
(current second minus `received_epoch_sec`, in `uint32` arithmetic) is at
most 6; with no address, no ip/port mapping, no policy, or a stale policy
it answers NoThrottle. -/
theorem rl_speed_throttle_policy_window (st : rate_limit_state)
    (addr_in : Option sockaddr_in) (dir : DataDirection) (current_epoch : epoch_t) :
    (rl_speed_throttle st addr_in dir current_epoch = .RL_THROTTLE →
      ∃ addr access_key policy, addr_in = some addr ∧
        get_key_from_ip_port st (ip_port_from_sockaddr addr) = some access_key ∧
        access_key ≠ "" ∧
        List.lookup access_key (get_key_speed_hash st dir) = some policy ∧
        u32_sub current_epoch.in_seconds policy.received_epoch_sec ≤ 6) ∧
    (addr_in = none → rl_speed_throttle st addr_in dir current_epoch = .RL_NO_THROTTLE) ∧
    (∀ addr, addr_in = some addr →
      get_key_from_ip_port st (ip_port_from_sockaddr addr) = none →
      rl_speed_throttle st addr_in dir current_epoch = .RL_NO_THROTTLE) ∧
    (∀ addr access_key, addr_in = some addr →
      get_key_from_ip_port st (ip_port_from_sockaddr addr) = some access_key →
      List.lookup access_key (get_key_speed_hash st dir) = none →
      rl_speed_throttle st addr_in dir current_epoch = .RL_NO_THROTTLE) ∧
    (∀ addr access_key policy, addr_in = some addr →
      get_key_from_ip_port st (ip_port_from_sockaddr addr) = some access_key →
      List.lookup access_key (get_key_speed_hash st dir) = some policy →
      ¬ u32_sub current_epoch.in_seconds policy.received_epoch_sec ≤ 6 →
      rl_speed_throttle st addr_in dir current_epoch = .RL_NO_THROTTLE) := by
  refine ⟨?_, ?_, ?_, ?_, ?_⟩
  · intro h
    cases addr_in with
    | none => simp [rl_speed_throttle] at h
    | some addr =>
      have hthr : (get_epoch_sec st (ip_port_from_sockaddr addr) dir
          current_epoch.in_seconds).1.throttle ≠ 0 := by
        intro hz
        simp [rl_speed_throttle, hz] at h
      obtain ⟨access_key, policy, hk, hke, hp, hage⟩ := get_epoch_sec_throttle_ne_zero hthr
      exact ⟨addr, access_key, policy, rfl, hk, hke, hp, hage⟩
  · intro h
    subst h
    rfl
  · intro addr ha hk
    subst ha
    simp [rl_speed_throttle, get_epoch_sec, hk, found_default]
  · intro addr access_key ha hk hp
    subst ha
    by_cases hke : access_key = "" <;>
      simp [rl_speed_throttle, get_epoch_sec, hk, hke, hp, found_default]
  · intro addr access_key policy ha hk hp hstale
    subst ha
    have hv : is_valid_violation_policy { policy with throttle := 0 }
        current_epoch.in_seconds = false := by
      simpa [is_valid_violation_policy, BACKOFF_WINDOW_EPOCHS] using hstale
    by_cases hke : access_key = "" <;>
      simp [rl_speed_throttle, get_epoch_sec, hk, hke, hp, hv, found_default]

/-- C4 witness: a loaded table (policy for key "u", download, received at
second 100) yields Throttle at second 101 with 400 000 µs elapsed, and the
policy-window clause extracts the mapping; an empty address yields
NoThrottle. -/
theorem rl_speed_throttle_policy_window_witness :
    rl_speed_throttle rl_loaded (some ⟨1, 80⟩) .RL_DOWNLOAD ⟨101, 400000⟩ = .RL_THROTTLE ∧
    (∃ addr access_key policy, (some ⟨1, 80⟩ : Option sockaddr_in) = some addr ∧
      get_key_from_ip_port rl_loaded (ip_port_from_sockaddr addr) = some access_key ∧
      access_key ≠ "" ∧
      List.lookup access_key (get_key_speed_hash rl_loaded .RL_DOWNLOAD) = some policy ∧
      u32_sub 101 policy.received_epoch_sec ≤ 6) ∧
    rl_speed_throttle rl_loaded none .RL_DOWNLOAD ⟨101, 400000⟩ = .RL_NO_THROTTLE := by
  have hfd : float_div_to_u64 750000 2 = 375000 := by
    unfold float_div_to_u64
    rw [show ((750000 : ℕ) : ℚ) / 2 = ((375000 : ℕ) : ℚ) by norm_num]
    rw [Int.floor_natCast]
    rfl
  have hcart : ∀ p : speed_hash_value_t, p.received_epoch_sec = 100 → p.diff_ratio = 2 →
      p.elapsed_usec_in_the_epoch = 750000 → compute_allowed_run_time p 101 = 375000 := by
    intro p h1 h2 h3
    unfold compute_allowed_run_time
    rw [h1, h2, h3, hfd]
    norm_num [u32_sub, MIN_RUN_TIME_USEC, UNIT_USECS_IN_SEC, BACKOFF_WINDOW_EPOCHS]
  have hget : get_epoch_sec rl_loaded (ip_port_from_sockaddr ⟨1, 80⟩) .RL_DOWNLOAD 101
      = (⟨1, 1, 100, 2, 750000, 375000, 0⟩, some "u") := by
    have h1 : get_key_from_ip_port rl_loaded (ip_port_from_sockaddr ⟨1, 80⟩) = some "u" := by
      decide
    have h2 : List.lookup "u" (get_key_speed_hash rl_loaded .RL_DOWNLOAD)
        = some ⟨0, 0, 100, 2, 750000, 0, 0⟩ := by decide
    unfold get_epoch_sec
    rw [h1]
    simp only
    rw [if_neg (by decide : ¬("u" = "")), h2]
    simp only
    rw [if_pos (by decide :
      is_valid_violation_policy { (⟨0, 0, 100, 2, 750000, 0, 0⟩ : speed_hash_value_t) with
        throttle := 0 } 101 = true)]
    rw [hcart _ rfl rfl rfl]
    decide
  have hthr : rl_speed_throttle rl_loaded (some ⟨1, 80⟩) .RL_DOWNLOAD ⟨101, 400000⟩
      = .RL_THROTTLE := by
    simp [rl_speed_throttle, hget]
  refine ⟨hthr, ?_, ?_⟩
  · exact (rl_speed_throttle_policy_window rl_loaded (some ⟨1, 80⟩) .RL_DOWNLOAD
      ⟨101, 400000⟩).1 hthr
  · exact (rl_speed_throttle_policy_window rl_loaded none .RL_DOWNLOAD
      ⟨101, 400000⟩).2.1 rfl

/-- A share update with a timestamp at least the stored one overwrites
timestamp and clamped share. -/
theorem ingest_direction_update_ge (d : user_direction_limit) (t v : Nat)
    (h : d.limit_timestamp ≤ t) :
    ingest_direction_update d t v =
      { d with limit_received := true, limit_timestamp := t,
               bytes_per_second := min v UINT_MAX } := by
  simp [ingest_direction_update, h]

/-- A share update with a timestamp strictly below the stored one only
marks the limit received. -/
theorem ingest_direction_update_lt (d : user_direction_limit) (t v : Nat)
    (h : t < d.limit_timestamp) :
    ingest_direction_update d t v = { d with limit_received := true } := by
  simp only [ingest_direction_update]
  rw [if_neg (by simp; omega)]

theorem greatestTsShare_eq_none {calls : List (Nat × Nat)} :
    greatestTsShare calls = none ↔ calls = [] := by
  cases calls with
  | nil => simp [greatestTsShare]
  | cons c rest =>
    constructor
    · intro h
      exfalso
      simp only [greatestTsShare] at h
      cases hg : greatestTsShare rest with
      | none => simp only [hg] at h; simp at h
      | some b => simp only [hg] at h; split at h <;> simp at h
    · intro h
      cases h

/-- Characterisation of a sequence of per-direction share updates: the
resulting record is determined by the greatest-timestamp call (later calls
winning ties), relative to the starting record's timestamp. -/
theorem ingest_fold_char (calls : List (Nat × Nat)) :
    ∀ d : user_direction_limit,
    (greatestTsShare calls = none →
      calls.foldl (fun d c => ingest_direction_update d c.1 c.2) d = d) ∧
    (∀ t v, greatestTsShare calls = some (t, v) →
      (d.limit_timestamp ≤ t →
        calls.foldl (fun d c => ingest_direction_update d c.1 c.2) d =
          { d with limit_received := true, limit_timestamp := t,
                   bytes_per_second := min v UINT_MAX }) ∧
      (t < d.limit_timestamp →
        calls.foldl (fun d c => ingest_direction_update d c.1 c.2) d =
          { d with limit_received := true })) := by
  induction calls with
  | nil =>
    intro d
    refine ⟨fun _ => rfl, ?_⟩
    intro t v h
    simp [greatestTsShare] at h
  | cons c rest ih =>
    intro d
    obtain ⟨tc, vc⟩ := c
    constructor
    · intro h
      rw [greatestTsShare_eq_none] at h
      cases h
    · intro t v h
      simp only [List.foldl_cons]
      cases hg : greatestTsShare rest with
      | none =>
        have hrest : rest = [] := greatestTsShare_eq_none.mp hg
        subst hrest
        simp only [greatestTsShare] at h
        obtain ⟨rfl, rfl⟩ : tc = t ∧ vc = v := by simpa using h
        constructor
        · intro hd
          simp only [List.foldl_nil]
          exact ingest_direction_update_ge d tc vc hd
        · intro hd
          simp only [List.foldl_nil]
          exact ingest_direction_update_lt d tc vc hd
      | some b =>
        obtain ⟨tb, vb⟩ := b
        simp only [greatestTsShare, hg] at h
        by_cases hbc : tb < tc
        · rw [if_pos hbc] at h
          obtain ⟨rfl, rfl⟩ : tc = t ∧ vc = v := by simpa using h
          constructor
          · intro hd
            rw [ingest_direction_update_ge d tc vc hd]
            exact ((ih { d with limit_received := true, limit_timestamp := tc, bytes_per_second := min vc UINT_MAX }).2 tb vb hg).2 (by simp; omega)
          · intro hd
            rw [ingest_direction_update_lt d tc vc hd]
            exact ((ih { d with limit_received := true }).2 tb vb hg).2 (by simp; omega)
        · rw [if_neg hbc] at h
          obtain ⟨rfl, rfl⟩ : tb = t ∧ vb = v := by simpa using h
          constructor
          · intro hd
            by_cases hdc : d.limit_timestamp ≤ tc
            · rw [ingest_direction_update_ge d tc vc hdc]
              have hrec := ((ih { d with limit_received := true, limit_timestamp := tc, bytes_per_second := min vc UINT_MAX }).2 tb vb hg).1 (by simp; omega)
              rw [hrec]
            · rw [ingest_direction_update_lt d tc vc (by omega)]
              have hrec := ((ih { d with limit_received := true }).2 tb vb hg).1 (by simp; omega)
              rw [hrec]
          · intro hd
            rw [ingest_direction_update_lt d tc vc (by omega)]
            exact ((ih { d with limit_received := true }).2 tb vb hg).2 (by simp; omega)

/-- The table state after a sequence of upload-share updates for one user:
the user's record carries the fold of the per-direction update over its
upload half; nothing else of the record changes. -/
theorem ingest_calls_lookup_up (calls : List (Nat × Nat)) :
    ∀ (g : weir_filter_config) (user_key instance_id : String),
    g.instance_id = instance_id →
    ((ingest_calls g user_key instance_id "up" calls).user_limit_state user_key).getD
        user_limit_zalloc
      = { (g.user_limit_state user_key).getD user_limit_zalloc with
          upload := calls.foldl (fun d c => ingest_direction_update d c.1 c.2)
            ((g.user_limit_state user_key).getD user_limit_zalloc).upload } := by
  induction calls with
  | nil =>
    intro g u i _
    simp [ingest_calls]
  | cons c rest ih =>
    intro g u i h
    have hinst : (weir_ingest_limit_share_update g c.1 u i "up" c.2).instance_id = i := by
      unfold weir_ingest_limit_share_update
      split
      · exact h
      · exact h
    have hlook : (weir_ingest_limit_share_update g c.1 u i "up" c.2).user_limit_state u
        = some { (g.user_limit_state u).getD user_limit_zalloc with
            upload := ingest_direction_update
              ((g.user_limit_state u).getD user_limit_zalloc).upload c.1 c.2 } := by
      unfold weir_ingest_limit_share_update
      rw [if_neg (by simp [h])]
      simp
    have hstep : ingest_calls g u i "up" (c :: rest)
        = ingest_calls (weir_ingest_limit_share_update g c.1 u i "up" c.2) u i "up" rest := by
      simp [ingest_calls]
    rw [hstep, ih _ u i hinst, hlook]
    simp

/-- The download counterpart of `ingest_calls_lookup_up`. -/
theorem ingest_calls_lookup_dwn (calls : List (Nat × Nat)) :
    ∀ (g : weir_filter_config) (user_key instance_id : String),
    g.instance_id = instance_id →
    ((ingest_calls g user_key instance_id "dwn" calls).user_limit_state user_key).getD
        user_limit_zalloc
      = { (g.user_limit_state user_key).getD user_limit_zalloc with
          download := calls.foldl (fun d c => ingest_direction_update d c.1 c.2)
            ((g.user_limit_state user_key).getD user_limit_zalloc).download } := by
  induction calls with
  | nil =>
    intro g u i _
    simp [ingest_calls]
  | cons c rest ih =>
    intro g u i h
    have hinst : (weir_ingest_limit_share_update g c.1 u i "dwn" c.2).instance_id = i := by
      unfold weir_ingest_limit_share_update
      split
      · exact h
      · exact h
    have hlook : (weir_ingest_limit_share_update g c.1 u i "dwn" c.2).user_limit_state u
        = some { (g.user_limit_state u).getD user_limit_zalloc with
            download := ingest_direction_update
              ((g.user_limit_state u).getD user_limit_zalloc).download c.1 c.2 } := by
      unfold weir_ingest_limit_share_update
      rw [if_neg (by simp [h])]
      simp
    have hstep : ingest_calls g u i "dwn" (c :: rest)
        = ingest_calls (weir_ingest_limit_share_update g c.1 u i "dwn" c.2) u i "dwn" rest := by
      simp [ingest_calls]
    rw [hstep, ih _ u i hinst, hlook]
    simp

/-- C5: starting from a table without the user, after any sequence of
`weir_ingest_limit_share_update` calls for one user and direction the stored
`bytes_per_second` is the value accompanying the greatest timestamp seen
(later calls overwriting ties), clamped to `2^32 - 1`, and the stored
timestamp is that greatest timestamp; the share never exceeds `2^32 - 1`;
a single update with a strictly older timestamp changes neither share nor
timestamp, while one with a timestamp at least the stored one overwrites
both. -/
theorem ingest_share_monotone :
    (∀ (g : weir_filter_config) (user_key instance_id : String) (calls : List (Nat × Nat)),
      g.instance_id = instance_id → g.user_limit_state user_key = none →
      ∀ dirS : String, dirS = "up" ∨ dirS = "dwn" →
      ((∀ t v, greatestTsShare calls = some (t, v) →
        (if dirS = "up"
          then (((ingest_calls g user_key instance_id dirS calls).user_limit_state
            user_key).getD user_limit_zalloc).upload
          else (((ingest_calls g user_key instance_id dirS calls).user_limit_state
            user_key).getD user_limit_zalloc).download).bytes_per_second = min v UINT_MAX ∧
        (if dirS = "up"
          then (((ingest_calls g user_key instance_id dirS calls).user_limit_state
            user_key).getD user_limit_zalloc).upload
          else (((ingest_calls g user_key instance_id dirS calls).user_limit_state
            user_key).getD user_limit_zalloc).download).limit_timestamp = t) ∧
       (if dirS = "up"
          then (((ingest_calls g user_key instance_id dirS calls).user_limit_state
            user_key).getD user_limit_zalloc).upload
          else (((ingest_calls g user_key instance_id dirS calls).user_limit_state
            user_key).getD user_limit_zalloc).download).bytes_per_second ≤ UINT_MAX)) ∧
    (∀ (d : user_direction_limit) (t v : Nat), t < d.limit_timestamp →
      (ingest_direction_update d t v).bytes_per_second = d.bytes_per_second ∧
      (ingest_direction_update d t v).limit_timestamp = d.limit_timestamp) ∧
    (∀ (d : user_direction_limit) (t v : Nat), d.limit_timestamp ≤ t →
      (ingest_direction_update d t v).bytes_per_second = min v UINT_MAX ∧
      (ingest_direction_update d t v).limit_timestamp = t) := by
  refine ⟨?_, ?_, ?_⟩
  · intro g user_key instance_id calls hinst hfresh dirS hdir
    have hzb : user_limit_zalloc.upload.limit_timestamp = 0 := rfl
    rcases hdir with hdir | hdir <;> subst hdir
    · rw [ingest_calls_lookup_up calls g user_key instance_id hinst, hfresh]
      simp only [Option.getD_none]
      constructor
      · intro t v hg
        have hch := ((ingest_fold_char calls user_limit_zalloc.upload).2 t v hg).1
          (by rw [hzb]; exact Nat.zero_le t)
        rw [hch]
        exact ⟨rfl, rfl⟩
      · cases hg : greatestTsShare calls with
        | none =>
          rw [(ingest_fold_char calls user_limit_zalloc.upload).1 hg]
          decide
        | some b =>
          obtain ⟨t, v⟩ := b
          have hch := ((ingest_fold_char calls user_limit_zalloc.upload).2 t v hg).1
            (by rw [hzb]; exact Nat.zero_le t)
          rw [hch]
          exact min_le_right _ _
    · rw [ingest_calls_lookup_dwn calls g user_key instance_id hinst, hfresh]
      simp only [Option.getD_none]
      constructor
      · intro t v hg
        have hch := ((ingest_fold_char calls user_limit_zalloc.download).2 t v hg).1
          (Nat.zero_le t)
        rw [hch]
        exact ⟨rfl, rfl⟩
      · cases hg : greatestTsShare calls with
        | none =>
          rw [(ingest_fold_char calls user_limit_zalloc.download).1 hg]
          decide
        | some b =>
          obtain ⟨t, v⟩ := b
          have hch := ((ingest_fold_char calls user_limit_zalloc.download).2 t v hg).1
            (Nat.zero_le t)
          rw [hch]
          exact min_le_right _ _
  · intro d t v h
    rw [ingest_direction_update_lt d t v h]
    exact ⟨rfl, rfl⟩
  · intro d t v h
    rw [ingest_direction_update_ge d t v h]
    exact ⟨rfl, rfl⟩

/-- C5 witness: three updates (timestamps 10, 10, 3 with shares 5, 7, 9)
applied to a fresh table leave share 7 and timestamp 10, the value of the
later of the two greatest-timestamp calls. -/
theorem ingest_share_monotone_witness :
    (weir_config_empty.instance_id = "I" ∧ weir_config_empty.user_limit_state "u" = none ∧
      greatestTsShare [(10, 5), (10, 7), (3, 9)] = some (10, 7)) ∧
    (((ingest_calls weir_config_empty "u" "I" "up" [(10, 5), (10, 7), (3, 9)]).user_limit_state
        "u").getD user_limit_zalloc).upload.bytes_per_second = 7 ∧
    (((ingest_calls weir_config_empty "u" "I" "up" [(10, 5), (10, 7), (3, 9)]).user_limit_state
        "u").getD user_limit_zalloc).upload.limit_timestamp = 10 := by
  have h := (ingest_share_monotone.1 weir_config_empty "u" "I" [(10, 5), (10, 7), (3, 9)]
    rfl rfl "up" (Or.inl rfl)).1 10 7 (by decide)
  refine ⟨⟨rfl, rfl, by decide⟩, ?_, ?_⟩
  · have h1 : (if ("up" : String) = "up"
        then (((ingest_calls weir_config_empty "u" "I" "up"
          [(10, 5), (10, 7), (3, 9)]).user_limit_state "u").getD user_limit_zalloc).upload
        else (((ingest_calls weir_config_empty "u" "I" "up"
          [(10, 5), (10, 7), (3, 9)]).user_limit_state "u").getD
            user_limit_zalloc).download).bytes_per_second = min 7 UINT_MAX := h.1
    rw [if_pos rfl] at h1
    rw [h1]
    decide
  · have h2 : (if ("up" : String) = "up"
        then (((ingest_calls weir_config_empty "u" "I" "up"
          [(10, 5), (10, 7), (3, 9)]).user_limit_state "u").getD user_limit_zalloc).upload
        else (((ingest_calls weir_config_empty "u" "I" "up"
          [(10, 5), (10, 7), (3, 9)]).user_limit_state "u").getD
            user_limit_zalloc).download).limit_timestamp = 10 := h.2
    rw [if_pos rfl] at h2
    exact h2

theorem isPfx_length {p l : List Char} (h : isPfx p l = true) : p.length ≤ l.length := by
  induction p generalizing l with
  | nil => simp
  | cons a as ih =>
    cases l with
    | nil => simp [isPfx] at h
    | cons b bs =>
      simp only [isPfx, Bool.and_eq_true] at h
      simpa using ih h.2

theorem isPfx_append_self (p r : List Char) : isPfx p (p ++ r) = true := by
  induction p with
  | nil => rfl
  | cons a as ih => simpa [isPfx] using ih

theorem findSub_le {l pat : List Char} {n : Nat} (h : findSub l pat = some n) :
    n + pat.length ≤ l.length := by
  induction l generalizing n with
  | nil =>
    simp only [findSub] at h
    split at h
    · rename_i hp
      cases h
      simpa using isPfx_length hp
    · simp at h
  | cons a t ih =>
    simp only [findSub] at h
    split at h
    · rename_i hp
      cases h
      simpa using isPfx_length hp
    · simp only [Option.map_eq_some'] at h
      obtain ⟨m, hm, rfl⟩ := h
      have := ih hm
      simp only [List.length_cons]
      omega

/-- One delimiter-probe unfolding of `findSub` at a cons cell whose head
is not a tilde. -/
theorem findSub_cons_of_ne {a : Char} (t : List Char) (ha : ¬('~' : Char) = a) :
    findSub (a :: t) DELIMITER = (findSub t DELIMITER).map (· + 1) := by
  have hpfx : isPfx DELIMITER (a :: t) = false := by
    simp [DELIMITER, isPfx, ha]
  rw [show findSub (a :: t) DELIMITER
    = if isPfx DELIMITER (a :: t) then some 0
      else (findSub t DELIMITER).map (· + 1) from rfl]
  rw [hpfx]
  rfl

/-- A tilde-free list contains no occurrence of the `~|~` delimiter. -/
theorem findSub_none_of_no_tilde {f : List Char} (h : '~' ∉ f) :
    findSub f DELIMITER = none := by
  induction f with
  | nil => rfl
  | cons a t ih =>
    have ha : ¬('~' : Char) = a := fun hc => h (hc ▸ List.mem_cons_self a t)
    have ht : '~' ∉ t := fun hc => h (List.mem_cons_of_mem a hc)
    rw [findSub_cons_of_ne t ha, ih ht]
    rfl

/-- After a tilde-free field, the first delimiter occurrence is exactly at
the field's end. -/
theorem findSub_tilde_append {f : List Char} (h : '~' ∉ f) (rest : List Char) :
    findSub (f ++ DELIMITER ++ rest) DELIMITER = some f.length := by
  induction f with
  | nil =>
    simp only [List.nil_append]
    rw [show findSub (DELIMITER ++ rest) DELIMITER
      = if isPfx DELIMITER (DELIMITER ++ rest) then some 0
        else (findSub ((DELIMITER ++ rest).tail) DELIMITER).map (· + 1) from rfl]
    rw [isPfx_append_self]
    rfl
  | cons a t ih =>
    have ha : ¬('~' : Char) = a := fun hc => h (hc ▸ List.mem_cons_self a t)
    have ht : '~' ∉ t := fun hc => h (List.mem_cons_of_mem a hc)
    rw [show (a :: t) ++ DELIMITER ++ rest = a :: (t ++ DELIMITER ++ rest) by simp]
    rw [findSub_cons_of_ne _ ha, ih ht]
    rfl

/-- `next` on a clean mid-state when a delimiter is found at `n`. -/
theorem next_mid_some {input : List Char} {i n : Nat}
    (hne : input.isEmpty = false)
    (hfind : stringFind input DELIMITER i = some n) :
    StringSplit.next ⟨input, DELIMITER, i, false, false⟩
      = ((input.drop i).take (n - i), ⟨input, DELIMITER, n + 3, false, false⟩) := by
  simp only [StringSplit.next, hne, Bool.false_eq_true, if_false]
  rw [hfind]
  rfl

/-- `next` on a clean mid-state when no delimiter remains. -/
theorem next_mid_none {input : List Char} {i : Nat}
    (hne : input.isEmpty = false)
    (hfind : stringFind input DELIMITER i = none) :
    StringSplit.next ⟨input, DELIMITER, i, false, false⟩
      = (input.drop i, ⟨input, DELIMITER, input.length, false, true⟩) := by
  simp only [StringSplit.next, hne, Bool.false_eq_true, if_false]
  rw [hfind]

/-- One unfolding step of `takeTokens`. -/
theorem takeTokens_succ (s : StringSplit) (n : Nat) :
    takeTokens s (n + 1)
      = (s.next.1 :: (takeTokens s.next.2 n).1, (takeTokens s.next.2 n).2) := by
  simp only [takeTokens]

/-- Running the tokenizer over a joined line of tilde-free fields returns
exactly the fields and ends at the end of the input with `m_eof` set. -/
theorem takeTokens_joinD (fs : List (List Char)) :
    ∀ p : List Char, fs ≠ [] → (∀ f ∈ fs, '~' ∉ f) → p ++ joinD fs ≠ [] →
    takeTokens ⟨p ++ joinD fs, DELIMITER, p.length, false, false⟩ fs.length
      = (fs, ⟨p ++ joinD fs, DELIMITER, (p ++ joinD fs).length, false, true⟩) := by
  induction fs with
  | nil => intro p h; exact absurd rfl h
  | cons f fs ih =>
    intro p _ hclean hne
    have hie : (p ++ joinD (f :: fs)).isEmpty = false := by
      cases hpp : p ++ joinD (f :: fs)
      · exact absurd hpp hne
      · rfl
    cases fs with
    | nil =>
      have hfind : stringFind (p ++ joinD [f]) DELIMITER p.length = none := by
        unfold stringFind
        rw [show joinD [f] = f from rfl, List.drop_left,
          findSub_none_of_no_tilde (hclean f (by simp))]
        rfl
      show takeTokens _ (0 + 1) = _
      simp only [takeTokens]
      rw [next_mid_none hie hfind]
      simp [joinD, List.drop_left]
    | cons f2 fs2 =>
      have hjoin : joinD (f :: f2 :: fs2) = f ++ DELIMITER ++ joinD (f2 :: fs2) := rfl
      have hinp : p ++ joinD (f :: f2 :: fs2)
          = (p ++ f ++ DELIMITER) ++ joinD (f2 :: fs2) := by
        rw [hjoin]
        simp [List.append_assoc]
      have hdrop : (p ++ joinD (f :: f2 :: fs2)).drop p.length
          = f ++ DELIMITER ++ joinD (f2 :: fs2) := by
        rw [hjoin, List.drop_left]
      have hfind : stringFind (p ++ joinD (f :: f2 :: fs2)) DELIMITER p.length
          = some (p.length + f.length) := by
        unfold stringFind
        rw [hdrop, findSub_tilde_append (hclean f (by simp))]
        simp [Nat.add_comm]
      have htok : ((p ++ joinD (f :: f2 :: fs2)).drop p.length).take (p.length + f.length - p.length)
          = f := by
        rw [hdrop, Nat.add_sub_cancel_left]
        rw [show f ++ DELIMITER ++ joinD (f2 :: fs2) = f ++ (DELIMITER ++ joinD (f2 :: fs2)) by
          simp [List.append_assoc]]
        exact List.take_left f _
      have hidx : p.length + f.length + 3 = (p ++ f ++ DELIMITER).length := by
        simp only [List.length_append, DELIMITER, List.length_cons, List.length_nil]
      have hrec := ih (p ++ f ++ DELIMITER) (by simp)
        (fun x hx => hclean x (List.mem_cons_of_mem f hx))
        (by rw [← hinp]; exact hne)
      show takeTokens _ ((f2 :: fs2).length + 1) = _
      rw [takeTokens_succ]
      rw [next_mid_some hie hfind]
      simp only
      rw [htok]
      rw [show (⟨p ++ joinD (f :: f2 :: fs2), DELIMITER, p.length + f.length + 3,
            false, false⟩ : StringSplit)
          = ⟨(p ++ f ++ DELIMITER) ++ joinD (f2 :: fs2), DELIMITER,
            (p ++ f ++ DELIMITER).length, false, false⟩ by rw [← hinp, ← hidx]]
      rw [hrec]
      simp only
      rw [← hinp]

theorem redisCmdKeyEq_iff {a b : RedisCmdKey} :
    redisCmdKeyEq a b = true ↔
      a.m_user = b.m_user ∧ getEpochSecs a.m_timestamp = getEpochSecs b.m_timestamp ∧
        a.m_cat = b.m_cat := by
  simp [redisCmdKeyEq, and_assoc]

theorem redisCmdKeyEq_refl (k : RedisCmdKey) : redisCmdKeyEq k k = true := by
  simp [redisCmdKeyEq]

theorem redisCmdKeyEq_symm {a b : RedisCmdKey} (h : redisCmdKeyEq a b = true) :
    redisCmdKeyEq b a = true := by
  rw [redisCmdKeyEq_iff] at h ⊢
  exact ⟨h.1.symm, h.2.1.symm, h.2.2.symm⟩

theorem redisCmdKeyEq_trans {a b c : RedisCmdKey} (h1 : redisCmdKeyEq a b = true)
    (h2 : redisCmdKeyEq b c = true) : redisCmdKeyEq a c = true := by
  rw [redisCmdKeyEq_iff] at h1 h2 ⊢
  exact ⟨h1.1.trans h2.1, h1.2.1.trans h2.2.1, h1.2.2.trans h2.2.2⟩

/-- Adding under a key raises the looked-up value of every equivalent key
by the added amount. -/
theorem cmdMapGet_add_equiv (m : List (RedisCmdKey × Int)) (k k' : RedisCmdKey) (v : Int)
    (h : redisCmdKeyEq k k' = true) :
    cmdMapGet (cmdMapAdd m k v) k' = cmdMapGet m k' + v := by
  induction m with
  | nil => simp [cmdMapAdd, cmdMapGet, h]
  | cons kv rest ih =>
    obtain ⟨k0, v0⟩ := kv
    by_cases h0 : redisCmdKeyEq k0 k = true
    · have h0' : redisCmdKeyEq k0 k' = true := redisCmdKeyEq_trans h0 h
      simp [cmdMapAdd, h0, cmdMapGet, h0']
    · have h0' : redisCmdKeyEq k0 k' = false := by
        rcases hb : redisCmdKeyEq k0 k' with _ | _
        · rfl
        · exact absurd (redisCmdKeyEq_trans hb (redisCmdKeyEq_symm h)) h0
      simp [cmdMapAdd, h0, cmdMapGet, h0', ih]

/-- Adding under a key leaves the looked-up value of every non-equivalent
key unchanged. -/
theorem cmdMapGet_add_ne (m : List (RedisCmdKey × Int)) (k k' : RedisCmdKey) (v : Int)
    (h : redisCmdKeyEq k k' = false) :
    cmdMapGet (cmdMapAdd m k v) k' = cmdMapGet m k' := by
  induction m with
  | nil => simp [cmdMapAdd, cmdMapGet, h]
  | cons kv rest ih =>
    obtain ⟨k0, v0⟩ := kv
    by_cases h0 : redisCmdKeyEq k0 k = true
    · have h0' : redisCmdKeyEq k0 k' = false := by
        rcases hb : redisCmdKeyEq k0 k' with _ | _
        · rfl
        · exact absurd (redisCmdKeyEq_trans (redisCmdKeyEq_symm h0) hb) (by simp [h])
      simp [cmdMapAdd, h0, cmdMapGet, h0']
    · simp only [cmdMapAdd, h0, Bool.false_eq_true, if_false, cmdMapGet]
      split
      · rfl
      · exact ih

/-- C6: a well-formed `req` event with printable user key adds 1 under the
verb category and, exactly when the request class is non-empty, 1 under the
class category; a well-formed `data_xfer` event adds its byte count under
`bnd_` + direction; two transfers inside one UTC second accumulate into a
single command-map entry while transfers across a second boundary stay
distinct. -/
theorem process_events_coalesce :
    (∀ (st : ProcessorState) (now : Nat) (ip user verb dir inst active cls : List Char)
      (a : Int),
      '~' ∉ ip → '~' ∉ user → '~' ∉ verb → '~' ∉ dir → '~' ∉ inst → '~' ∉ active → '~' ∉ cls →
      isPrintableASCII user = true →
      fromCharsInt active = some a →
      (cls = [] ∨ cls ≠ verb) →
      (processReq st (reqLine ip user verb dir inst active cls) now).2 = false ∧
      cmdMapGet
          (processReq st (reqLine ip user verb dir inst active cls) now).1.m_qos_redis_commands
          ⟨"user_".toList ++ user, now, verb⟩
        = cmdMapGet st.m_qos_redis_commands ⟨"user_".toList ++ user, now, verb⟩ + 1 ∧
      (cls ≠ [] →
        cmdMapGet
            (processReq st (reqLine ip user verb dir inst active cls) now).1.m_qos_redis_commands
            ⟨"user_".toList ++ user, now, cls⟩
          = cmdMapGet st.m_qos_redis_commands ⟨"user_".toList ++ user, now, cls⟩ + 1)) ∧
    (∀ (st : ProcessorState) (now : Nat) (ip user dir lenstr : List Char) (len : Int),
      '~' ∉ ip → '~' ∉ user → '~' ∉ dir → '~' ∉ lenstr →
      isPrintableASCII user = true → user ≠ [] →
      fromCharsInt lenstr = some len →
      (processDataXfer st (dataXferLine ip user dir lenstr) now).2 = false ∧
      cmdMapGet
          (processDataXfer st (dataXferLine ip user dir lenstr) now).1.m_qos_redis_commands
          ⟨"user_".toList ++ user, now, "bnd_".toList ++ dir⟩
        = cmdMapGet st.m_qos_redis_commands
            ⟨"user_".toList ++ user, now, "bnd_".toList ++ dir⟩ + len) ∧
    (processDataXfer (processDataXfer procEmpty dx4096 10100).1 dx1024 10999).1.m_qos_redis_commands
      = [(⟨"user_u".toList, 10100, "bnd_up".toList⟩, 5120)] ∧
    (processDataXfer (processDataXfer procEmpty dx4096 10100).1 dx1024 11001).1.m_qos_redis_commands
      = [(⟨"user_u".toList, 10100, "bnd_up".toList⟩, 4096),
         (⟨"user_u".toList, 11001, "bnd_up".toList⟩, 1024)] := by
  refine ⟨?_, ?_, by decide, by decide⟩
  · intro st now ip user verb dir inst active cls a hip huser hverb hdir hinst hactive hcls
      hpr hact hcv
    have hclean : ∀ f ∈ ["req".toList, ip, user, verb, dir, inst, active, cls], '~' ∉ f := by
      intro f hf
      simp only [List.mem_cons] at hf
      rcases hf with rfl | rfl | rfl | rfl | rfl | rfl | rfl | rfl | hf
      · decide
      · exact hip
      · exact huser
      · exact hverb
      · exact hdir
      · exact hinst
      · exact hactive
      · exact hcls
      · simp at hf
    have hne : ([] : List Char)
        ++ joinD ["req".toList, ip, user, verb, dir, inst, active, cls] ≠ [] := by
      simp [joinD, DELIMITER]
    have hsplit' : takeTokens
        (StringSplit.make (reqLine ip user verb dir inst active cls) DELIMITER) 8
        = (["req".toList, ip, user, verb, dir, inst, active, cls],
           ⟨reqLine ip user verb dir inst active cls, DELIMITER,
            (reqLine ip user verb dir inst active cls).length, false, true⟩) :=
      takeTokens_joinD ["req".toList, ip, user, verb, dir, inst, active, cls] []
        (by simp) hclean hne
    simp only [processReq, hsplit', List.getD_cons_zero, List.getD_cons_succ,
      StringSplit.finishedSuccessfully, Bool.not_false, Bool.true_and, Nat.le_refl,
      decide_True, Bool.not_true, Bool.false_eq_true, if_false, hact, hpr]
    refine ⟨trivial, ?_, ?_⟩
    · rw [cmdMapGet_add_equiv _ _ _ _ (redisCmdKeyEq_refl _)]
      by_cases hc : 0 < cls.length
      · have hclsverb : cls ≠ verb := by
          rcases hcv with h | h
          · subst h; simp at hc
          · exact h
        have hne2 : redisCmdKeyEq ⟨"user_".toList ++ user, now, cls⟩
            ⟨"user_".toList ++ user, now, verb⟩ = false := by
          rcases hb : redisCmdKeyEq ⟨"user_".toList ++ user, now, cls⟩
              ⟨"user_".toList ++ user, now, verb⟩ with _ | _
          · rfl
          · exact absurd (redisCmdKeyEq_iff.mp hb).2.2 hclsverb
        rw [if_pos hc, cmdMapGet_add_ne _ _ _ _ hne2]
      · rw [if_neg hc]
    · intro hcne
      have hc : 0 < cls.length := by
        cases cls
        · exact absurd rfl hcne
        · simp
      have hclsverb : cls ≠ verb := by
        rcases hcv with h | h
        · exact absurd h hcne
        · exact h
      have hne2 : redisCmdKeyEq ⟨"user_".toList ++ user, now, verb⟩
          ⟨"user_".toList ++ user, now, cls⟩ = false := by
        rcases hb : redisCmdKeyEq ⟨"user_".toList ++ user, now, verb⟩
            ⟨"user_".toList ++ user, now, cls⟩ with _ | _
        · rfl
        · exact absurd (redisCmdKeyEq_iff.mp hb).2.2 (Ne.symm hclsverb)
      rw [cmdMapGet_add_ne _ _ _ _ hne2, if_pos hc,
        cmdMapGet_add_equiv _ _ _ _ (redisCmdKeyEq_refl _)]
  · intro st now ip user dir lenstr len hip huser hdir hlen hpr hue hparse
    have hclean : ∀ f ∈ ["data_xfer".toList, ip, user, dir, lenstr], '~' ∉ f := by
      intro f hf
      simp only [List.mem_cons] at hf
      rcases hf with rfl | rfl | rfl | rfl | rfl | hf
      · decide
      · exact hip
      · exact huser
      · exact hdir
      · exact hlen
      · simp at hf
    have hne : ([] : List Char) ++ joinD ["data_xfer".toList, ip, user, dir, lenstr] ≠ [] := by
      simp [joinD, DELIMITER]
    have hsplit' : takeTokens
        (StringSplit.make (dataXferLine ip user dir lenstr) DELIMITER) 5
        = (["data_xfer".toList, ip, user, dir, lenstr],
           ⟨dataXferLine ip user dir lenstr, DELIMITER,
            (dataXferLine ip user dir lenstr).length, false, true⟩) :=
      takeTokens_joinD ["data_xfer".toList, ip, user, dir, lenstr] [] (by simp) hclean hne
    have huem : user.isEmpty = false := by
      cases user
      · exact absurd rfl hue
      · rfl
    simp only [processDataXfer, hsplit', List.getD_cons_zero, List.getD_cons_succ,
      StringSplit.finishedSuccessfully, Bool.not_false, Bool.true_and, Nat.le_refl,
      decide_True, Bool.not_true, Bool.false_eq_true, if_false, hparse, hpr, huem]
    exact ⟨trivial, cmdMapGet_add_equiv _ _ _ _ (redisCmdKeyEq_refl _)⟩

/-- C6 witness: the `req` clause instantiated on the spec scenario's line
(user u, verb PUT, empty request class) from the empty state. -/
theorem process_events_coalesce_witness :
    (isPrintableASCII "u".toList = true ∧
      fromCharsInt "3".toList = some 3) ∧
    (processReq procEmpty
        (reqLine "1.2.3.4:80".toList "u".toList "PUT".toList "up".toList "I".toList
          "3".toList []) 10100).2 = false ∧
    cmdMapGet (processReq procEmpty
        (reqLine "1.2.3.4:80".toList "u".toList "PUT".toList "up".toList "I".toList
          "3".toList []) 10100).1.m_qos_redis_commands
        ⟨"user_".toList ++ "u".toList, 10100, "PUT".toList⟩ = 1 := by
  have h := process_events_coalesce.1 procEmpty 10100 "1.2.3.4:80".toList "u".toList
    "PUT".toList "up".toList "I".toList "3".toList [] 3
    (by decide) (by decide) (by decide) (by decide) (by decide) (by decide) (by decide)
    (by decide) (by decide) (Or.inl rfl)
  refine ⟨⟨by decide, by decide⟩, h.1, ?_⟩
  rw [h.2.1]
  decide

/-- C9: a `data_xfer` event that tokenizes with a numeric byte count and an
empty user key is ignored entirely — the processor state (command map and
pending-event count included) is returned unchanged and no error is logged —
whereas a non-printable user key is dropped with an error log. -/
theorem processDataXfer_empty_user :
    (∀ (st : ProcessorState) (now : Nat) (ip dir lenstr : List Char) (len : Int),
      '~' ∉ ip → '~' ∉ dir → '~' ∉ lenstr →
      fromCharsInt lenstr = some len →
      processDataXfer st (dataXferLine ip [] dir lenstr) now = (st, false)) ∧
    (∀ (st : ProcessorState) (now : Nat) (ip user dir lenstr : List Char) (len : Int),
      '~' ∉ ip → '~' ∉ user → '~' ∉ dir → '~' ∉ lenstr →
      fromCharsInt lenstr = some len →
      isPrintableASCII user = false →
      processDataXfer st (dataXferLine ip user dir lenstr) now = (st, true)) := by
  constructor
  · intro st now ip dir lenstr len hip hdir hlen hparse
    have hclean : ∀ f ∈ ["data_xfer".toList, ip, ([] : List Char), dir, lenstr], '~' ∉ f := by
      intro f hf
      simp only [List.mem_cons] at hf
      rcases hf with rfl | rfl | rfl | rfl | rfl | hf
      · decide
      · exact hip
      · simp
      · exact hdir
      · exact hlen
      · simp at hf
    have hne : ([] : List Char)
        ++ joinD ["data_xfer".toList, ip, ([] : List Char), dir, lenstr] ≠ [] := by
      simp [joinD, DELIMITER]
    have hsplit' : takeTokens
        (StringSplit.make (dataXferLine ip [] dir lenstr) DELIMITER) 5
        = (["data_xfer".toList, ip, ([] : List Char), dir, lenstr],
           ⟨dataXferLine ip [] dir lenstr, DELIMITER,
            (dataXferLine ip [] dir lenstr).length, false, true⟩) :=
      takeTokens_joinD ["data_xfer".toList, ip, [], dir, lenstr] [] (by simp) hclean hne
    simp only [processDataXfer, hsplit', List.getD_cons_zero, List.getD_cons_succ,
      StringSplit.finishedSuccessfully, Bool.not_false, Bool.true_and, Nat.le_refl,
      decide_True, Bool.not_true, Bool.false_eq_true, if_false, hparse]
    rfl
  · intro st now ip user dir lenstr len hip huser hdir hlen hparse hpr
    have hclean : ∀ f ∈ ["data_xfer".toList, ip, user, dir, lenstr], '~' ∉ f := by
      intro f hf
      simp only [List.mem_cons] at hf
      rcases hf with rfl | rfl | rfl | rfl | rfl | hf
      · decide
      · exact hip
      · exact huser
      · exact hdir
      · exact hlen
      · simp at hf
    have hne : ([] : List Char) ++ joinD ["data_xfer".toList, ip, user, dir, lenstr] ≠ [] := by
      simp [joinD, DELIMITER]
    have hsplit' : takeTokens
        (StringSplit.make (dataXferLine ip user dir lenstr) DELIMITER) 5
        = (["data_xfer".toList, ip, user, dir, lenstr],
           ⟨dataXferLine ip user dir lenstr, DELIMITER,
            (dataXferLine ip user dir lenstr).length, false, true⟩) :=
      takeTokens_joinD ["data_xfer".toList, ip, user, dir, lenstr] [] (by simp) hclean hne
    simp only [processDataXfer, hsplit', List.getD_cons_zero, List.getD_cons_succ,
      StringSplit.finishedSuccessfully, Bool.not_false, Bool.true_and, Nat.le_refl,
      decide_True, Bool.not_true, Bool.false_eq_true, if_false, hparse, hpr]
    rfl

/-- C9 witness: a concrete transfer line with an empty user field leaves
the empty processor state untouched with no error, and the same line with a
non-printable user key is dropped with an error. -/
theorem processDataXfer_empty_user_witness :
    (fromCharsInt "4096".toList = some 4096 ∧
      isPrintableASCII [Char.ofNat 1] = false) ∧
    processDataXfer procEmpty
      (dataXferLine "1.2.3.4:80".toList [] "up".toList "4096".toList) 10100
      = (procEmpty, false) ∧
    processDataXfer procEmpty
      (dataXferLine "1.2.3.4:80".toList [Char.ofNat 1] "up".toList "4096".toList) 10100
      = (procEmpty, true) :=
  ⟨⟨by decide, by decide⟩,
    processDataXfer_empty_user.1 procEmpty 10100 "1.2.3.4:80".toList "up".toList
      "4096".toList 4096 (by decide) (by decide) (by decide) (by decide),
    processDataXfer_empty_user.2 procEmpty 10100 "1.2.3.4:80".toList [Char.ofNat 1]
      "up".toList "4096".toList 4096 (by decide) (by decide) (by decide) (by decide)
      (by decide) (by decide)⟩

theorem splitFieldsAux_congr : ∀ (fuel1 : Nat), ∀ (fuel2 : Nat) (l : List Char),
    l.length < fuel1 → l.length < fuel2 → splitFieldsAux fuel1 l = splitFieldsAux fuel2 l := by
  intro fuel1
  induction fuel1 with
  | zero => intro fuel2 l h1 _; omega
  | succ f1 ih =>
    intro fuel2 l h1 h2
    cases fuel2 with
    | zero => omega
    | succ f2 =>
      simp only [splitFieldsAux]
      cases hf : findSub l DELIMITER with
      | none => rfl
      | some n =>
        have hb := findSub_le hf
        have hd3 : DELIMITER.length = 3 := rfl
        rw [hd3] at hb
        have hlen : (l.drop (n + 3)).length < f1 ∧ (l.drop (n + 3)).length < f2 := by
          simp only [List.length_drop]
          omega
        simp only [ih f2 (l.drop (n + 3)) hlen.1 hlen.2]

/-- The defining recurrence of `splitFields`, independent of the fuel. -/
theorem splitFields_eq (l : List Char) :
    splitFields l =
      match findSub l DELIMITER with
      | none => [l]
      | some n => l.take n :: splitFields (l.drop (n + 3)) := by
  have hstep : splitFieldsAux (l.length + 1) l
      = match findSub l DELIMITER with
        | none => [l]
        | some n => l.take n :: splitFieldsAux l.length (l.drop (n + 3)) := rfl
  cases hf : findSub l DELIMITER with
  | none =>
    unfold splitFields
    rw [hstep, hf]
  | some n =>
    have hb := findSub_le hf
    have hd3 : DELIMITER.length = 3 := rfl
    rw [hd3] at hb
    unfold splitFields
    rw [hstep, hf]
    simp only
    congr 1
    show splitFieldsAux l.length (l.drop (n + 3))
      = splitFieldsAux ((l.drop (n + 3)).length + 1) (l.drop (n + 3))
    exact splitFieldsAux_congr l.length ((l.drop (n + 3)).length + 1) (l.drop (n + 3))
      (by simp only [List.length_drop]; omega) (by simp)

theorem splitFields_ne_nil (l : List Char) : splitFields l ≠ [] := by
  rw [splitFields_eq]
  cases findSub l DELIMITER <;> simp

/-- `next` on an errored splitter is the identity. -/
theorem next_error (s : StringSplit) (h : s.m_error = true) : s.next = ([], s) := by
  simp [StringSplit.next, h]

/-- `next` on an exhausted (but not yet errored) splitter flags the
error. -/
theorem next_eof (s : StringSplit) (he : s.m_error = false) (hf : s.m_eof = true) :
    s.next = ([], { s with m_error := true }) := by
  simp [StringSplit.next, he, hf]

/-- An errored splitter stays in its state under any number of calls. -/
theorem takeTokens_error_state (s : StringSplit) (h : s.m_error = true) :
    ∀ k, (takeTokens s k).2 = s := by
  intro k
  induction k with
  | zero => rfl
  | succ k2 ih =>
    rw [takeTokens_succ, next_error s h]
    exact ih

/-- An errored splitter never reports a successful finish. -/
theorem finishedSuccessfully_error (s : StringSplit) (h : s.m_error = true) :
    s.finishedSuccessfully = false := by
  simp [StringSplit.finishedSuccessfully, h]

/-- After `k` calls to `next` from position `i`, the splitter reports a
successful finish exactly when the remainder holds `k` fields, or `k + 1`
fields the last of which is empty (a trailing delimiter). -/
theorem finishedAfter_iff (k : Nat) : ∀ (l : List Char) (i : Nat), i ≤ l.length →
    ((takeTokens ⟨l, DELIMITER, i, false, false⟩ k).2.finishedSuccessfully = true ↔
      ((splitFields (l.drop i)).length = k ∨
        ((splitFields (l.drop i)).length = k + 1 ∧
          (splitFields (l.drop i)).getLast? = some []))) := by
  induction k with
  | zero =>
    intro l i hi
    by_cases hd : l.length ≤ i
    · have hdrop : l.drop i = [] := List.drop_eq_nil_of_le hd
      rw [hdrop]
      simp [takeTokens, StringSplit.finishedSuccessfully, hd,
        show splitFields [] = [[]] from rfl]
    · have hne : l.drop i ≠ [] := by
        intro hc
        exact hd (List.drop_eq_nil_iff.mp hc)
      rw [splitFields_eq]
      cases hf : findSub (l.drop i) DELIMITER with
      | none =>
        simp [takeTokens, StringSplit.finishedSuccessfully, hd, hne]
      | some n =>
        have hnn := splitFields_ne_nil ((l.drop i).drop (n + 3))
        simp [takeTokens, StringSplit.finishedSuccessfully, hd]
        intro hlen
        exact absurd hlen (by simpa using hnn)
  | succ k ih =>
    intro l i hi
    rw [takeTokens_succ]
    by_cases hl : l.isEmpty = true
    · have hl' : l = [] := by
        cases l
        · rfl
        · simp at hl
      subst hl'
      have hi0 : i = 0 := by simpa using hi
      subst hi0
      rw [show StringSplit.next ⟨[], DELIMITER, 0, false, false⟩
          = ([], ⟨[], DELIMITER, 1, false, true⟩) from rfl]
      cases k with
      | zero =>
        simp [takeTokens, StringSplit.finishedSuccessfully,
          show splitFields [] = [[]] from rfl]
      | succ k2 =>
        rw [takeTokens_succ,
          next_eof ⟨[], DELIMITER, 1, false, true⟩ rfl rfl]
        have herr := takeTokens_error_state ⟨[], DELIMITER, 1, true, true⟩ rfl k2
        simp only [herr, finishedSuccessfully_error ⟨[], DELIMITER, 1, true, true⟩ rfl]
        simp [show splitFields [] = [[]] from rfl]
    · have hlf : l.isEmpty = false := by
        cases hb : l.isEmpty
        · rfl
        · exact absurd hb hl
      cases hf : stringFind l DELIMITER i with
      | none =>
        have hfd : findSub (l.drop i) DELIMITER = none := by
          unfold stringFind at hf
          cases hres : findSub (l.drop i) DELIMITER with
          | none => rfl
          | some m => rw [hres] at hf; simp at hf
        have hone : splitFields (l.drop i) = [l.drop i] := by
          rw [splitFields_eq, hfd]
        rw [next_mid_none hlf hf]
        cases k with
        | zero =>
          simp [takeTokens, StringSplit.finishedSuccessfully, hone]
        | succ k2 =>
          rw [takeTokens_succ,
            next_eof ⟨l, DELIMITER, l.length, false, true⟩ rfl rfl]
          have herr := takeTokens_error_state ⟨l, DELIMITER, l.length, true, true⟩ rfl k2
          simp only [herr, finishedSuccessfully_error ⟨l, DELIMITER, l.length, true, true⟩ rfl]
          simp [hone]
      | some n =>
        obtain ⟨m, hmap, hmi⟩ : ∃ m, findSub (l.drop i) DELIMITER = some m ∧ m + i = n := by
          unfold stringFind at hf
          cases hres : findSub (l.drop i) DELIMITER with
          | none => rw [hres] at hf; simp at hf
          | some m =>
            rw [hres] at hf
            simp only [Option.map_some'] at hf
            exact ⟨m, rfl, by simpa using hf⟩
        have hmb := findSub_le hmap
        have hd3 : DELIMITER.length = 3 := rfl
        rw [hd3] at hmb
        simp only [List.length_drop] at hmb
        have hbound : n + 3 ≤ l.length := by omega
        rw [next_mid_some hlf hf]
        simp only
        rw [ih l (n + 3) (by omega)]
        have hsplit : splitFields (l.drop i)
            = (l.drop i).take m :: splitFields ((l.drop i).drop (m + 3)) := by
          rw [splitFields_eq, hmap]
        have hdd : (l.drop i).drop (m + 3) = l.drop (n + 3) := by
          rw [List.drop_drop]
          congr 1
          omega
        rw [hsplit, hdd]
        have hnn := splitFields_ne_nil (l.drop (n + 3))
        have hlast : ((l.drop i).take m :: splitFields (l.drop (n + 3))).getLast?
            = (splitFields (l.drop (n + 3))).getLast? := by
          cases hc : splitFields (l.drop (n + 3)) with
          | nil => exact absurd hc hnn
          | cons c t => rw [List.getLast?_cons_cons]
        rw [hlast]
        simp only [List.length_cons]
        constructor
        · rintro (h | ⟨h, hp⟩)
          · exact Or.inl (by omega)
          · exact Or.inr ⟨by omega, hp⟩
        · rintro (h | ⟨h, hp⟩)
          · exact Or.inl (by omega)
          · exact Or.inr ⟨by omega, hp⟩

/-- C10 (amended): a `next()` call on an exhausted splitter enters a
permanent error state — every further `next()` returns an empty view and
leaves the state unchanged, and `finishedSuccessfully` stays false; and the
`req` parser's format gate accepts a line exactly when the line has the 8
expected delimiter-separated fields, or 9 fields the last of which is empty
(a trailing delimiter); a line failing the gate is dropped with an error. -/
theorem stringsplit_exhaustion_acceptance :
    (∀ s : StringSplit, s.m_error = true →
      s.next = ([], s) ∧ s.finishedSuccessfully = false ∧
      (∀ k, (takeTokens s k).2.finishedSuccessfully = false)) ∧
    (∀ s : StringSplit, s.m_error = false → s.m_eof = true →
      s.next = ([], { s with m_error := true }) ∧
      ({ s with m_error := true } : StringSplit).finishedSuccessfully = false) ∧
    (∀ l : List Char,
      (takeTokens (StringSplit.make l DELIMITER) 8).2.finishedSuccessfully = true ↔
        ((splitFields l).length = 8 ∨
          ((splitFields l).length = 9 ∧ (splitFields l).getLast? = some []))) ∧
    (∀ (st : ProcessorState) (now : Nat) (l : List Char),
      (takeTokens (StringSplit.make l DELIMITER) 8).2.finishedSuccessfully = false →
      processReq st l now = (st, true)) := by
  refine ⟨?_, ?_, ?_, ?_⟩
  · intro s h
    refine ⟨next_error s h, finishedSuccessfully_error s h, ?_⟩
    intro k
    rw [takeTokens_error_state s h k]
    exact finishedSuccessfully_error s h
  · intro s he hf
    exact ⟨next_eof s he hf, finishedSuccessfully_error _ rfl⟩
  · intro l
    have h := finishedAfter_iff 8 l 0 (Nat.zero_le _)
    simpa using h
  · intro st now l h
    cases htk : takeTokens (StringSplit.make l DELIMITER) 8 with
    | mk tokens split =>
      rw [htk] at h
      simp only at h
      simp [processReq, htk, h]

/-- C10 counterexample: a `req` line carrying 9 delimiter-separated fields
(the 9th empty, from a trailing delimiter) passes the format gate and is
processed without error, refuting "accepts only when it contains exactly
the expected number of fields". -/
theorem processReq_accepts_trailing_delimiter :
    (splitFields "req~|~1.2.3.4:80~|~u~|~PUT~|~up~|~I~|~3~|~X~|~".toList).length = 9 ∧
    (splitFields "req~|~1.2.3.4:80~|~u~|~PUT~|~up~|~I~|~3~|~X~|~".toList).getLast? = some [] ∧
    (takeTokens (StringSplit.make "req~|~1.2.3.4:80~|~u~|~PUT~|~up~|~I~|~3~|~X~|~".toList
      DELIMITER) 8).2.finishedSuccessfully = true ∧
    (processReq procEmpty "req~|~1.2.3.4:80~|~u~|~PUT~|~up~|~I~|~3~|~X~|~".toList 5000).2
      = false := by
  refine ⟨by decide, by decide, by decide, by decide⟩

/-- C10 witness: the exhaustion clause applied to a concrete exhausted
splitter, and the rejection clause applied to a concrete short line. -/
theorem stringsplit_exhaustion_acceptance_witness :
    ((⟨"ab".toList, DELIMITER, 2, false, true⟩ : StringSplit).next
        = ([], ⟨"ab".toList, DELIMITER, 2, true, true⟩) ∧
      (⟨"ab".toList, DELIMITER, 2, true, true⟩ : StringSplit).finishedSuccessfully = false) ∧
    processReq procEmpty "req~|~short".toList 5000 = (procEmpty, true) :=
  ⟨stringsplit_exhaustion_acceptance.2.1 ⟨"ab".toList, DELIMITER, 2, false, true⟩ rfl rfl,
    stringsplit_exhaustion_acceptance.2.2.2 procEmpty 5000 "req~|~short".toList (by decide)⟩

/-- C8 witness: the disconnected flush applied to a state holding one stale
entry (5 s, older than the 2 s TTL at t = 140 s) and one fresh entry
(139 s); only the fresh entry survives and a reconnect is initiated. -/
theorem sendToRedisQos_disconnected_witness :
    (procLoaded.m_last_redis_flush_time + procLoaded.m_processor_batch_flush_period < 140000) ∧
    ((sendToRedisQos procLoaded false 140000).2.1 = [] ∧
      (sendToRedisQos procLoaded false 140000).1.m_qos_redis_commands =
        procLoaded.m_qos_redis_commands.filter
          (fun kv => decide (140000 ≤ kv.1.m_timestamp + procLoaded.m_redis_qos_ttl * 1000)) ∧
      (sendToRedisQos procLoaded false 140000).1.m_qos_redis_active_reqs = [] ∧
      ((sendToRedisQos procLoaded false 140000).2.2 = true →
        procLoaded.m_last_redis_connect_time + procLoaded.m_check_conn_interval ≤ 140000)) ∧
    (sendToRedisQos procLoaded false 140000).1.m_qos_redis_commands =
      [(⟨"user_u".toList, 139000, "PUT".toList⟩, 1)] ∧
    (sendToRedisQos procLoaded false 140000).2.2 = true :=
  ⟨by decide, sendToRedisQos_disconnected procLoaded 140000 (Or.inl (by decide)),
    by decide, by decide⟩
